import Mathlib

/-!
Verification of the repogen repository generator against its specification.

Go strings are modelled as `List Char` (`Str`); Go maps as association
lists or as functions built by successive functional update; fallible Go
code as `Except`/`Option`. Library calls whose byte-level output is
irrelevant to the properties (hashing, gzip/zstd compression, XML
rendering) are abstracted as function parameters.
-/

namespace Repogen

/-- Character sequences stand for Go byte strings. -/
abbrev Str := List Char

/-- Chars of a Lean string literal, transcribing a Go string literal. -/
def cs (x : String) : Str := x.data

/-- Values stored in a `Package.Metadata` map (`map[string]interface{}` in
`internal/models`); the source stores strings and 64-bit integers there. -/
inductive MetaVal where
  | str (v : Str)
  | int (v : Int)
deriving DecidableEq

/-- `internal/models`: the canonical Package record. -/
structure Package where
  name : Str := []
  version : Str := []
  architecture : Str := []
  description : Str := []
  maintainer : Str := []
  homepage : Str := []
  license : Str := []
  dependencies : List Str := []
  filename : Str := []
  size : Int := 0
  md5sum : Str := []
  sha1sum : Str := []
  sha256sum : Str := []
  sha512sum : Str := []
  metadata : List (Str × MetaVal) := []
deriving DecidableEq

/-- `internal/scanner`: PackageType constants. -/
inductive PackageType where
  | unknown
  | deb
  | rpm
  | apk
  | homebrewBottle
  | pacman
deriving DecidableEq

/-- Lookup in a modelled Go map (first binding wins; Go maps have unique
keys, so an association list read front-to-back is a faithful view). -/
def lookupMeta (m : List (Str × MetaVal)) (k : Str) : Option MetaVal :=
  match m with
  | [] => none
  | (k', v) :: rest => if k' = k then some v else lookupMeta rest k

/-- Models the Go two-valued type assertion `m[k].(string)`:
`some v` exactly when the key is present with a string value. -/
def lookupMetaStr (m : List (Str × MetaVal)) (k : Str) : Option Str :=
  match lookupMeta m k with
  | some (MetaVal.str v) => some v
  | _ => none

/-- Models `m[k].(int64)`. -/
def lookupMetaInt (m : List (Str × MetaVal)) (k : Str) : Option Int :=
  match lookupMeta m k with
  | some (MetaVal.int v) => some v
  | _ => none

/-- Fuel-driven digit accumulator (structurally recursive so that closed
terms reduce in the kernel). -/
def natDigitsGo : Nat → Nat → List Char → List Char
  | 0, _, acc => acc
  | fuel + 1, n, acc =>
    if n < 10 then Nat.digitChar n :: acc
    else natDigitsGo fuel (n / 10) (Nat.digitChar (n % 10) :: acc)

/-- Decimal digits of a natural number, most significant first (the digits
Go's `%d` prints for a non-negative value). -/
def natDigits (n : Nat) : List Char := natDigitsGo (n + 1) n []

theorem natDigitsGo_append : ∀ (fuel n : Nat) (acc : List Char),
    natDigitsGo fuel n acc = natDigitsGo fuel n [] ++ acc
  | 0, _, _ => rfl
  | fuel + 1, n, acc => by
    rw [natDigitsGo, natDigitsGo]
    by_cases h : n < 10
    · simp [h]
    · rw [if_neg h, if_neg h]
      rw [natDigitsGo_append fuel (n / 10) (Nat.digitChar (n % 10) :: acc),
        natDigitsGo_append fuel (n / 10) [Nat.digitChar (n % 10)]]
      simp

theorem natDigitsGo_fuel (fuel : Nat) : ∀ n : Nat, n < fuel →
    natDigitsGo fuel n [] = natDigits n := by
  induction fuel using Nat.strong_induction_on with
  | _ fuel ih =>
    intro n hn
    cases fuel with
    | zero => omega
    | succ f =>
      rw [natDigits]
      by_cases h : n < 10
      · rw [natDigitsGo, natDigitsGo, if_pos h, if_pos h]
      · have hdiv : n / 10 < n := Nat.div_lt_self (by omega) (by omega)
        rw [natDigitsGo, natDigitsGo, if_neg h, if_neg h]
        rw [natDigitsGo_append f, natDigitsGo_append n]
        rw [ih f (by omega) (n / 10) (by omega)]
        rw [ih n (by omega) (n / 10) (by omega)]

/-- Recurrence: one digit is peeled from the right for n ≥ 10. -/
theorem natDigits_ge (n : Nat) (h : ¬ n < 10) :
    natDigits n = natDigits (n / 10) ++ [Nat.digitChar (n % 10)] := by
  have hdiv : n / 10 < n := Nat.div_lt_self (by omega) (by omega)
  rw [natDigits, natDigitsGo, if_neg h, natDigitsGo_append]
  rw [natDigitsGo_fuel n (n / 10) (by omega)]

/-- Base case: a single digit for n < 10. -/
theorem natDigits_lt (n : Nat) (h : n < 10) : natDigits n = [Nat.digitChar n] := by
  rw [natDigits, natDigitsGo, if_pos h]

/-- Go `%d` rendering of a (signed, here unbounded) integer. -/
def intStr (n : Int) : Str :=
  if n < 0 then '-' :: natDigits (-n).toNat else natDigits n.toNat

/-- Go `filepath.Base` (unix): strip trailing slashes, keep the last
path element; "." for the empty path, "/" when the path is all slashes. -/
def baseName (p : Str) : Str :=
  if p = [] then cs "."
  else
    let p1 := (p.reverse.dropWhile (fun d => d = '/')).reverse
    let p2 := (p1.reverse.takeWhile (fun d => d ≠ '/')).reverse
    if p2 = [] then cs "/" else p2

/-- `internal/models`: RepositoryConfig. -/
structure RepositoryConfig where
  inputDir : Str := []
  outputDir : Str := []
  origin : Str := []
  label : Str := []
  repoName : Str := []
  codename : Str := []
  suite : Str := []
  components : List Str := []
  arches : List Str := []
  version : Str := []
  gpgKeyPath : Str := []
  gpgPassphrase : Str := []
  rsaKeyPath : Str := []
  rsaPassphrase : Str := []
  rsaKeyName : Str := []
  baseURL : Str := []
  gpgKeyURL : Str := []
  distroVariant : Str := []
  incremental : Bool := false
deriving DecidableEq

/-- `internal/utils/package_identity.go` PackageIdentity: format-dependent
identity string, colon-joined. -/
def PackageIdentity (pkg : Package) (pkgType : PackageType) : Str :=
  match pkgType with
  | PackageType.deb | PackageType.apk | PackageType.pacman =>
      pkg.name ++ cs ":" ++ pkg.version ++ cs ":" ++ pkg.architecture
  | PackageType.rpm =>
      let release := (lookupMetaStr pkg.metadata (cs "Release")).getD (cs "1")
      pkg.name ++ cs ":" ++ pkg.version ++ cs ":" ++ release ++ cs ":" ++ pkg.architecture
  | _ => pkg.name ++ cs ":" ++ pkg.version

/-- `internal/utils/package_identity.go` DetectConflicts: builds the set of
existing identities (a `map[string]bool`, modelled as a functionally
updated characteristic function) and keeps the new packages whose
identity is in it, in order. -/
def DetectConflicts (existing newPackages : List Package) (pkgType : PackageType) :
    List Package :=
  let existingMap : Str → Bool :=
    existing.foldl (fun acc pkg => fun k =>
      if k = PackageIdentity pkg pkgType then true else acc k) (fun _ => false)
  newPackages.foldl (fun conflicts pkg =>
    if existingMap (PackageIdentity pkg pkgType) then conflicts ++ [pkg] else conflicts) []

/- Helper lemmas characterising DetectConflicts. -/

theorem existingMap_spec (existing : List Package) (t : PackageType) (k : Str) :
    existing.foldl (fun acc pkg => fun k' =>
        if k' = PackageIdentity pkg t then true else acc k') (fun _ => false) k =
      existing.any (fun pkg => PackageIdentity pkg t = k) := by
  suffices h : ∀ (f : Str → Bool),
      existing.foldl (fun acc pkg => fun k' =>
        if k' = PackageIdentity pkg t then true else acc k') f k =
      (existing.any (fun pkg => PackageIdentity pkg t = k) || f k) by
    simpa using h (fun _ => false)
  induction existing with
  | nil => intro f; simp
  | cons p rest ih =>
    intro f
    simp only [List.foldl_cons, List.any_cons, ih]
    by_cases h : k = PackageIdentity p t
    · subst h; simp
    · have h' : ¬ PackageIdentity p t = k := fun hh => h hh.symm
      simp [h, h']

theorem detectConflicts_foldl (pkgs : List Package) (m : Str → Bool) (t : PackageType)
    (acc : List Package) :
    pkgs.foldl (fun conflicts pkg =>
        if m (PackageIdentity pkg t) then conflicts ++ [pkg] else conflicts) acc =
      acc ++ pkgs.filter (fun pkg => m (PackageIdentity pkg t)) := by
  induction pkgs generalizing acc with
  | nil => simp
  | cons p rest ih =>
    by_cases h : m (PackageIdentity p t)
    · simp [List.foldl_cons, h, ih, List.filter_cons]
    · simp [List.foldl_cons, h, ih, List.filter_cons]

/-- C1, counterexample: two packages whose (name, version, architecture)
tuples differ — existing ("a", "b:c", "d") and incoming ("a:b", "c", "d") —
are nevertheless reported as a conflict by DetectConflicts, because the
colon-joined identity strings coincide; so conflict detection does not
report exactly the incoming packages whose identity TUPLE occurs among the
existing ones. -/
theorem claim1_counterexample :
    DetectConflicts
        [{ name := cs "a", version := cs "b:c", architecture := cs "d" }]
        [{ name := cs "a:b", version := cs "c", architecture := cs "d" }]
        PackageType.deb
      = [{ name := cs "a:b", version := cs "c", architecture := cs "d" }] ∧
    ¬ ((cs "a:b", cs "c", cs "d") = ((cs "a" : Str), (cs "b:c" : Str), (cs "d" : Str))) := by
  constructor
  · decide
  · decide

/-- C1, amended: conflict detection reports a conflict for exactly those
incoming packages whose colon-joined PackageIdentity string occurs among
the existing packages' identity strings, where the string is
name:version:architecture for Debian/Alpine/Pacman,
name:version:release:architecture for RPM (release taken from the
Metadata map), and name:version for Homebrew bottles (these strings
coincide with the identity tuples whenever the fields contain no colon);
for an empty incoming sequence no conflict is ever reported. -/
theorem claim1_theorem (existing incoming : List Package) (t : PackageType)
    (p : Package) (r : Str) (hr : lookupMetaStr p.metadata (cs "Release") = some r) :
    DetectConflicts existing incoming t
      = incoming.filter
          (fun q => existing.any (fun e => PackageIdentity e t = PackageIdentity q t)) ∧
    DetectConflicts existing [] t = [] ∧
    PackageIdentity p PackageType.deb
      = p.name ++ cs ":" ++ p.version ++ cs ":" ++ p.architecture ∧
    PackageIdentity p PackageType.apk
      = p.name ++ cs ":" ++ p.version ++ cs ":" ++ p.architecture ∧
    PackageIdentity p PackageType.pacman
      = p.name ++ cs ":" ++ p.version ++ cs ":" ++ p.architecture ∧
    PackageIdentity p PackageType.rpm
      = p.name ++ cs ":" ++ p.version ++ cs ":" ++ r ++ cs ":" ++ p.architecture ∧
    PackageIdentity p PackageType.homebrewBottle = p.name ++ cs ":" ++ p.version := by
  refine ⟨?_, ?_, rfl, rfl, rfl, ?_, rfl⟩
  · unfold DetectConflicts
    rw [detectConflicts_foldl]
    rw [List.nil_append]
    apply List.filter_congr
    intro q _
    rw [existingMap_spec]
  · unfold DetectConflicts
    rfl
  · simp [PackageIdentity, hr]

/-- C1, witness for the amended theorem at concrete packages. -/
theorem claim1_witness :
    lookupMetaStr [(cs "Release", MetaVal.str (cs "2"))] (cs "Release") = some (cs "2") ∧
    DetectConflicts
        [{ name := cs "x", version := cs "1", architecture := cs "amd64" }]
        [{ name := cs "x", version := cs "1", architecture := cs "amd64" },
         { name := cs "y", version := cs "1", architecture := cs "amd64" }]
        PackageType.deb
      = [{ name := cs "x", version := cs "1", architecture := cs "amd64" },
         { name := cs "y", version := cs "1", architecture := cs "amd64" }].filter
          (fun q => [{ name := cs "x", version := cs "1", architecture := cs "amd64" }].any
            (fun e => PackageIdentity e PackageType.deb = PackageIdentity q PackageType.deb)) := by
  refine ⟨by decide, ?_⟩
  exact (claim1_theorem
    [{ name := cs "x", version := cs "1", architecture := cs "amd64" }]
    [{ name := cs "x", version := cs "1", architecture := cs "amd64" },
     { name := cs "y", version := cs "1", architecture := cs "amd64" }]
    PackageType.deb
    { name := cs "p", metadata := [(cs "Release", MetaVal.str (cs "2"))] }
    (cs "2") (by decide)).1

/-- C9: an RPM package whose Metadata map has no string entry under
"Release" gets release component "1" in its PackageIdentity, and therefore
collides with any package of the same name, version and architecture whose
Release metadata is the string "1". -/
theorem claim9_theorem (p q : Package)
    (hp : lookupMetaStr p.metadata (cs "Release") = none)
    (hn : q.name = p.name) (hv : q.version = p.version)
    (ha : q.architecture = p.architecture)
    (hq : lookupMetaStr q.metadata (cs "Release") = some (cs "1")) :
    PackageIdentity p PackageType.rpm
      = p.name ++ cs ":" ++ p.version ++ cs ":" ++ cs "1" ++ cs ":" ++ p.architecture ∧
    PackageIdentity q PackageType.rpm = PackageIdentity p PackageType.rpm := by
  constructor
  · simp [PackageIdentity, hp]
  · simp [PackageIdentity, hp, hq, hn, hv, ha]

/-- C9, witness at concrete packages. -/
theorem claim9_witness :
    PackageIdentity { name := cs "n", version := cs "v", architecture := cs "a" }
        PackageType.rpm
      = cs "n" ++ cs ":" ++ cs "v" ++ cs ":" ++ cs "1" ++ cs ":" ++ cs "a" ∧
    PackageIdentity
        { name := cs "n", version := cs "v", architecture := cs "a",
          metadata := [(cs "Release", MetaVal.str (cs "1"))] } PackageType.rpm
      = PackageIdentity { name := cs "n", version := cs "v", architecture := cs "a" }
          PackageType.rpm := by
  exact claim9_theorem
    { name := cs "n", version := cs "v", architecture := cs "a" }
    { name := cs "n", version := cs "v", architecture := cs "a",
      metadata := [(cs "Release", MetaVal.str (cs "1"))] }
    (by decide) (by decide) (by decide) (by decide) (by decide)

/- RPM generator (internal/generator/rpm). Hashing, gzip and XML
rendering are abstracted as function parameters; the XML documents are
modelled as the structures the source marshals. -/

/-- Go `fmt.Sprintf("%v", v)` on a Metadata map read: the stored value's
rendering, "<nil>" when the key is absent. -/
def metaRender (v : Option MetaVal) : Str :=
  match v with
  | some (MetaVal.str s) => s
  | some (MetaVal.int n) => intStr n
  | none => cs "<nil>"

/-- primary.xml `version` element. -/
structure XmlVersion where
  epoch : Str
  ver : Str
  rel : Str
deriving DecidableEq

/-- primary.xml per-package `checksum` element. -/
structure XmlChecksum where
  typ : Str
  pkgid : Str
  value : Str
deriving DecidableEq

/-- primary.xml `package` element. -/
structure XmlPkg where
  typ : Str
  name : Str
  arch : Str
  version : XmlVersion
  checksum : XmlChecksum
  summary : Str
  packager : Str
  url : Str
  timeFile : Int
  timeBuild : Int
  sizePackage : Int
  sizeInstalled : Int
  sizeArchive : Int
  locationHref : Str
  license : Str
  group : Str
deriving DecidableEq

/-- primary.xml root `metadata` element. -/
structure PrimaryMeta where
  xmlns : Str
  xmlnsRpm : Str
  packagesCount : Nat
  packages : List XmlPkg
deriving DecidableEq

/-- generatePrimaryXML (structure part; `xml.MarshalIndent` abstracted at
the call site): release defaults to "1", build time to `now`, epoch is
hardcoded "0". -/
def generatePrimaryMeta (now : Int) (packages : List Package) : PrimaryMeta :=
  { xmlns := cs "http://linux.duke.edu/metadata/common",
    xmlnsRpm := cs "http://linux.duke.edu/metadata/rpm",
    packagesCount := packages.length,
    packages := packages.map (fun pkg =>
      { typ := cs "rpm", name := pkg.name, arch := pkg.architecture,
        version := { epoch := cs "0", ver := pkg.version,
                     rel := (lookupMetaStr pkg.metadata (cs "Release")).getD (cs "1") },
        checksum := { typ := cs "sha256", pkgid := cs "YES", value := pkg.sha256sum },
        summary := pkg.description, packager := pkg.maintainer, url := pkg.homepage,
        timeFile := now,
        timeBuild := (lookupMetaInt pkg.metadata (cs "BuildTime")).getD now,
        sizePackage := pkg.size, sizeInstalled := pkg.size, sizeArchive := pkg.size,
        locationHref := pkg.filename,
        license := pkg.license,
        group := metaRender (lookupMeta pkg.metadata (cs "Group")) }) }

/-- repomd.xml `checksum` / `open-checksum` element. -/
structure RepomdChecksum where
  typ : Str
  value : Str
deriving DecidableEq

/-- repomd.xml `data` element. -/
structure RepomdData where
  typ : Str
  checksum : RepomdChecksum
  openChecksum : RepomdChecksum
  locationHref : Str
  timestamp : Int
  size : Int
  openSize : Int
deriving DecidableEq

/-- repomd.xml root element. -/
structure Repomd where
  xmlns : Str
  xmlnsRpm : Str
  revision : Int
  data : List RepomdData
deriving DecidableEq

/-- generateRepomdXML: the open-checksum is the SHA256 of the checksum
STRING (`utils.CalculateChecksum([]byte(primaryChecksum), "sha256")` in
the source), not of the uncompressed primary.xml bytes. -/
def generateRepomdXML (sha256hex : Str → Str) (now : Int) (primaryChecksum : Str)
    (compressedSize uncompressedSize : Int) : Repomd :=
  let openChecksum := sha256hex primaryChecksum
  { xmlns := cs "http://linux.duke.edu/metadata/repo",
    xmlnsRpm := cs "http://linux.duke.edu/metadata/rpm",
    revision := now,
    data := [{ typ := cs "primary",
               checksum := { typ := cs "sha256", value := primaryChecksum },
               openChecksum := { typ := cs "sha256", value := openChecksum },
               locationHref := cs "repodata/" ++ primaryChecksum ++ cs "-primary.xml.gz",
               timestamp := now, size := compressedSize, openSize := uncompressedSize }] }

/-- Outcome of one RPM version/arch generation: file copies, WriteFile
calls, and the repomd document. -/
structure RpmArchOut where
  copies : List (Str × Str)
  writes : List (Str × Str)
  repomd : Repomd
deriving DecidableEq

/-- generateForVersionArch: copies RPMs under `<version>/<arch>/Packages/`,
rewrites each filename to `Packages/<base>`, writes
`repodata/<sha256>-primary.xml.gz` and `repodata/repomd.xml`, plus a
detached signature when a signer is configured. -/
def generateForVersionArch (sha256hex gzipF : Str → Str)
    (renderPrimary : PrimaryMeta → Str) (renderRepomd : Repomd → Str) (now : Int)
    (outputDir version arch : Str) (packages : List Package)
    (signDetached : Option (Str → Str)) : RpmArchOut :=
  let versionArchDir := outputDir ++ cs "/" ++ version ++ cs "/" ++ arch
  let repodataDir := versionArchDir ++ cs "/repodata"
  let packagesDir := versionArchDir ++ cs "/Packages"
  let copies := packages.map (fun p => (p.filename, packagesDir ++ cs "/" ++ baseName p.filename))
  let packages' := packages.map (fun p =>
    { p with filename := cs "Packages/" ++ baseName p.filename })
  let primaryXML := renderPrimary (generatePrimaryMeta now packages')
  let primaryGz := gzipF primaryXML
  let primaryChecksum := sha256hex primaryGz
  let primaryPath := repodataDir ++ cs "/" ++ primaryChecksum ++ cs "-primary.xml.gz"
  let repomdDoc := generateRepomdXML sha256hex now primaryChecksum
    (primaryGz.length : Int) (primaryXML.length : Int)
  let repomdXML := renderRepomd repomdDoc
  let sigWrites :=
    match signDetached with
    | some signF => [(repodataDir ++ cs "/repomd.xml.asc", signF repomdXML)]
    | none => []
  { copies := copies,
    writes := [(primaryPath, primaryGz), (repodataDir ++ cs "/repomd.xml", repomdXML)]
      ++ sigWrites,
    repomd := repomdDoc }

/-- C4: in every generated repomd.xml, the `checksum` value is the SHA256
of the compressed primary bytes, and the `open-checksum` value is the
SHA256 of that checksum string itself (hashed again as a string), not the
SHA256 of the uncompressed primary.xml bytes (whenever those two hashes
differ at all). -/
theorem claim4_theorem (sha256hex gzipF : Str → Str)
    (renderPrimary : PrimaryMeta → Str) (renderRepomd : Repomd → Str) (now : Int)
    (outputDir version arch : Str) (packages : List Package)
    (signDetached : Option (Str → Str)) :
    (generateForVersionArch sha256hex gzipF renderPrimary renderRepomd now
        outputDir version arch packages signDetached).repomd.data.map
        (fun d => (d.checksum.value, d.openChecksum.value))
      = [(sha256hex (gzipF (renderPrimary (generatePrimaryMeta now (packages.map (fun p =>
            { p with filename := cs "Packages/" ++ baseName p.filename }))))),
          sha256hex (sha256hex (gzipF (renderPrimary (generatePrimaryMeta now
            (packages.map (fun p =>
              { p with filename := cs "Packages/" ++ baseName p.filename })))))))] ∧
    (∀ d ∈ (generateForVersionArch sha256hex gzipF renderPrimary renderRepomd now
        outputDir version arch packages signDetached).repomd.data,
      d.openChecksum.value = sha256hex d.checksum.value ∧
      (sha256hex d.checksum.value
          ≠ sha256hex (renderPrimary (generatePrimaryMeta now (packages.map (fun p =>
              { p with filename := cs "Packages/" ++ baseName p.filename })))) →
        d.openChecksum.value
          ≠ sha256hex (renderPrimary (generatePrimaryMeta now (packages.map (fun p =>
              { p with filename := cs "Packages/" ++ baseName p.filename })))))) := by
  refine ⟨rfl, ?_⟩
  intro d hd
  simp only [generateForVersionArch, generateRepomdXML, List.mem_singleton] at hd
  subst hd
  exact ⟨rfl, fun h => h⟩

/-- C4, witness at concrete oracles and an empty package list. -/
theorem claim4_witness :
    (generateForVersionArch (fun st => 'h' :: st) (fun st => 'g' :: st)
        (fun _ => cs "px") (fun _ => cs "rx") 0
        (cs "out") (cs "40") (cs "x86_64") [] none).repomd.data.map
        (fun d => (d.checksum.value, d.openChecksum.value))
      = [(('h' :: 'g' :: cs "px"),
          ('h' :: 'h' :: 'g' :: cs "px"))] := by
  have h := (claim4_theorem (fun st => 'h' :: st) (fun st => 'g' :: st)
    (fun _ => cs "px") (fun _ => cs "rx") 0
    (cs "out") (cs "40") (cs "x86_64") [] none).1
  simpa using h

/- internal/generator/rpm/parser.go — distro version extraction.
Each Go regexp has the shape `lit(\d+)` (leftmost match, greedy capture);
`findPat lit` is its `FindStringSubmatch(..)[1]`: scan left to right for
the first position where the literal is followed by at least one digit,
and return that maximal digit run. `findPat []` is the final `(\d+)`
fallback. -/

/-- Strips a literal from the front: `some r` iff `s = lit ++ r`. -/
def stripPre : Str → Str → Option Str
  | [], s => some s
  | _ :: _, [] => none
  | a :: as, b :: bs => if a = b then stripPre as bs else none

/-- Leftmost match of the regexp `lit(\d+)`: the captured digit run. -/
def findPat (lit : Str) : Str → Option Str
  | [] => none
  | c :: rest =>
    match stripPre lit (c :: rest) with
    | some r =>
      let ds := r.takeWhile Char.isDigit
      if ds = [] then findPat lit rest else some ds
    | none => findPat lit rest

/-- parseVersionFromDistro: ordered regex fallbacks, then first digit run,
then the empty string. -/
def parseVersionFromDistro (distro : Str) : Str :=
  (((((((findPat (cs "fc") distro).or (findPat (cs ".fc") distro)).or
    (findPat (cs "el") distro)).or (findPat (cs ".el") distro)).or
    (findPat (cs ".c") distro)).or (findPat (cs "fedora") distro)).or
    (findPat [] distro)).getD []

/-- getDistroVersion: DISTURL, then DISTRIBUTION, then DISTTAG. -/
def getDistroVersion (disturl dist disttag : Str) : Str :=
  if disturl ≠ [] ∧ parseVersionFromDistro disturl ≠ [] then
    parseVersionFromDistro disturl
  else if dist ≠ [] ∧ parseVersionFromDistro dist ≠ [] then
    parseVersionFromDistro dist
  else if disttag ≠ [] ∧ parseVersionFromDistro disttag ≠ [] then
    parseVersionFromDistro disttag
  else []

/-- getPackageVersion defaults by DistroVariant. -/
def rpmDefaultVersion (distroVariant : Str) : Str :=
  if distroVariant = cs "fedora" then cs "40"
  else if distroVariant = cs "centos" then cs "9"
  else if distroVariant = cs "rhel" then cs "9"
  else cs "40"

/-- getPackageVersion: explicit config version, else the package's
DistroVersion metadata, else the DistroVariant default. -/
def getPackageVersion (config : RepositoryConfig) (pkg : Package) : Str :=
  if config.version ≠ [] then config.version
  else
    let ver := (lookupMetaStr pkg.metadata (cs "DistroVersion")).getD []
    if ver ≠ [] then ver else rpmDefaultVersion config.distroVariant

theorem stripPre_eq_some (lit : Str) : ∀ s r : Str, stripPre lit s = some r ↔ s = lit ++ r := by
  induction lit with
  | nil => intro s r; simp [stripPre, eq_comm]
  | cons a as ih =>
    intro s r
    cases s with
    | nil => simp [stripPre]
    | cons b bs =>
      by_cases hab : a = b
      · subst hab
        simp [stripPre, ih]
      · have : ¬ b = a := fun h => hab h.symm
        simp [stripPre, hab, this]

theorem findPat_some_ne (lit : Str) : ∀ s v : Str, findPat lit s = some v → v ≠ [] := by
  intro s
  induction s with
  | nil => intro v h; simp [findPat] at h
  | cons c rest ih =>
    intro v h
    rw [findPat] at h
    cases hs : stripPre lit (c :: rest) with
    | none => rw [hs] at h; exact ih v h
    | some r =>
      rw [hs] at h
      simp only at h
      by_cases hds : r.takeWhile Char.isDigit = []
      · rw [if_pos hds] at h; exact ih v h
      · rw [if_neg hds] at h
        cases h
        exact hds

theorem findPat_none_of_all_nondigit (lit : Str) :
    ∀ s : Str, (∀ c ∈ s, c.isDigit = false) → findPat lit s = none := by
  intro s
  induction s with
  | nil => intro _; rfl
  | cons c rest ih =>
    intro h
    have hrest : ∀ x ∈ rest, x.isDigit = false := fun x hx => h x (List.mem_cons_of_mem _ hx)
    rw [findPat]
    cases hs : stripPre lit (c :: rest) with
    | none => exact ih hrest
    | some r =>
      simp only
      have hr : ∀ x ∈ r, x.isDigit = false := by
        intro x hx
        have : x ∈ c :: rest := by
          rw [(stripPre_eq_some lit (c :: rest) r).mp hs]
          exact List.mem_append_right _ hx
        exact h x this
      have hds : r.takeWhile Char.isDigit = [] := by
        cases r with
        | nil => rfl
        | cons rh rt =>
          have : rh.isDigit = false := hr rh (List.mem_cons_self _ _)
          simp [List.takeWhile_cons, this]
      rw [if_pos hds]
      exact ih hrest

theorem findPat_nil_eq (s : Str) :
    findPat [] s =
      (if s.dropWhile (fun c => !c.isDigit) = [] then none
       else some ((s.dropWhile (fun c => !c.isDigit)).takeWhile Char.isDigit)) := by
  induction s with
  | nil => rfl
  | cons c rest ih =>
    rw [findPat]
    by_cases hc : c.isDigit
    · have h1 : stripPre [] (c :: rest) = some (c :: rest) := rfl
      rw [h1]
      simp only
      have h2 : (c :: rest).takeWhile Char.isDigit = c :: rest.takeWhile Char.isDigit := by
        simp [List.takeWhile_cons, hc]
      have h3 : (c :: rest).dropWhile (fun c => !c.isDigit) = c :: rest := by
        simp [List.dropWhile_cons, hc]
      rw [h2, h3]
      simp [h2]
    · have h1 : stripPre [] (c :: rest) = some (c :: rest) := rfl
      rw [h1]
      simp only
      have hc' : c.isDigit = false := by
        cases h : c.isDigit
        · rfl
        · exact absurd h hc
      have h2 : (c :: rest).takeWhile Char.isDigit = [] := by
        simp [List.takeWhile_cons, hc']
      have h3 : (c :: rest).dropWhile (fun c => !c.isDigit) =
          rest.dropWhile (fun c => !c.isDigit) := by
        simp [List.dropWhile_cons, hc']
      rw [if_pos h2, h3, ih]

theorem digitRun_ne_of_mem : ∀ (s : Str) (c : Char), c ∈ s → c.isDigit = true →
    (s.dropWhile (fun x => !x.isDigit)).takeWhile Char.isDigit ≠ [] := by
  intro s
  induction s with
  | nil => intro c hc _; cases hc
  | cons h rest ih =>
    intro c hc hd
    by_cases hh : h.isDigit
    · have : (h :: rest).dropWhile (fun x => !x.isDigit) = h :: rest := by
        simp [List.dropWhile_cons, hh]
      rw [this]
      simp [List.takeWhile_cons, hh]
    · have hh' : h.isDigit = false := by
        cases hhh : h.isDigit
        · rfl
        · exact absurd hhh hh
      have : (h :: rest).dropWhile (fun x => !x.isDigit) =
          rest.dropWhile (fun x => !x.isDigit) := by
        simp [List.dropWhile_cons, hh']
      rw [this]
      have hcr : c ∈ rest := by
        cases hc with
        | head => rw [hd] at hh'; cases hh'
        | tail _ hmem => exact hmem
      exact ih c hcr hd

/-- C8, amended: distro-version extraction tries the ordered fc/el/c/fedora
patterns, falls back to the first digit run when none matches, and returns
empty exactly when the string has no digits; an RPM whose DISTTAG's
leftmost fc-digits match captures "40" (with DISTURL and DISTRIBUTION
empty and no explicit version flag) is placed under `40/<arch>/`. -/
theorem claim8_theorem (s : Str)
    (config : RepositoryConfig) (pkg : Package) (disttag : Str)
    (sha256hex gzipF : Str → Str) (renderPrimary : PrimaryMeta → Str)
    (renderRepomd : Repomd → Str) (now : Int) (outputDir arch : Str)
    (signDetached : Option (Str → Str))
    (hcv : config.version = [])
    (hdv : lookupMetaStr pkg.metadata (cs "DistroVersion")
      = some (getDistroVersion [] [] disttag))
    (hfc : findPat (cs "fc") disttag = some (cs "40")) :
    (parseVersionFromDistro s = [] ↔ ∀ c ∈ s, c.isDigit = false) ∧
    (findPat (cs "fc") s = none → findPat (cs ".fc") s = none →
     findPat (cs "el") s = none → findPat (cs ".el") s = none →
     findPat (cs ".c") s = none → findPat (cs "fedora") s = none →
     parseVersionFromDistro s
       = (s.dropWhile (fun c => !c.isDigit)).takeWhile Char.isDigit) ∧
    getPackageVersion config pkg = cs "40" ∧
    (generateForVersionArch sha256hex gzipF renderPrimary renderRepomd now
        outputDir (getPackageVersion config pkg) arch [pkg] signDetached).copies
      = [(pkg.filename,
          outputDir ++ cs "/" ++ cs "40" ++ cs "/" ++ arch ++ cs "/Packages"
            ++ cs "/" ++ baseName pkg.filename)] := by
  have hdisttag_ne : disttag ≠ [] := by
    intro h
    rw [h] at hfc
    simp [findPat] at hfc
  have hpv : parseVersionFromDistro disttag = cs "40" := by
    simp [parseVersionFromDistro, hfc, Option.or]
  have hgdv : getDistroVersion [] [] disttag = cs "40" := by
    rw [getDistroVersion]
    rw [if_neg (by simp)]
    rw [if_neg (by simp)]
    rw [if_pos ⟨hdisttag_ne, by rw [hpv]; simp [cs]⟩]
    exact hpv
  have hgpv : getPackageVersion config pkg = cs "40" := by
    rw [getPackageVersion, if_neg (by simp [hcv])]
    simp only [hdv, hgdv, Option.getD_some]
    rw [if_pos (by simp [cs])]
  refine ⟨?_, ?_, hgpv, ?_⟩
  · constructor
    · intro h c hc
      by_contra hd
      have hd' : c.isDigit = true := by
        cases hdd : c.isDigit
        · exact absurd hdd hd
        · rfl
      have hrun := digitRun_ne_of_mem s c hc hd'
      rw [parseVersionFromDistro] at h
      cases h1 : findPat (cs "fc") s <;>
        cases h2 : findPat (cs ".fc") s <;>
        cases h3 : findPat (cs "el") s <;>
        cases h4 : findPat (cs ".el") s <;>
        cases h5 : findPat (cs ".c") s <;>
        cases h6 : findPat (cs "fedora") s <;>
        simp only [h1, h2, h3, h4, h5, h6, Option.or, Option.getD] at h
      case none.none.none.none.none.none =>
        rw [findPat_nil_eq s] at h
        by_cases hdw : s.dropWhile (fun c => !c.isDigit) = []
        · rw [List.dropWhile_eq_nil_iff] at hdw
          have := hdw c hc
          rw [hd'] at this
          cases this
        · rw [if_neg hdw] at h
          exact hrun h
      all_goals first
        | (exact absurd h (findPat_some_ne _ s _ (by assumption)))
    · intro h
      rw [parseVersionFromDistro,
        findPat_none_of_all_nondigit (cs "fc") s h,
        findPat_none_of_all_nondigit (cs ".fc") s h,
        findPat_none_of_all_nondigit (cs "el") s h,
        findPat_none_of_all_nondigit (cs ".el") s h,
        findPat_none_of_all_nondigit (cs ".c") s h,
        findPat_none_of_all_nondigit (cs "fedora") s h,
        findPat_none_of_all_nondigit [] s h]
      rfl
  · intro h1 h2 h3 h4 h5 h6
    rw [parseVersionFromDistro, h1, h2, h3, h4, h5, h6]
    rw [findPat_nil_eq s]
    by_cases hdw : s.dropWhile (fun c => !c.isDigit) = []
    · rw [if_pos hdw, hdw]
      rfl
    · rw [if_neg hdw]
      rfl
  · rw [hgpv]
    simp [generateForVersionArch]

/-- C8, witness: DISTTAG ".fc40" yields version "40" and path prefix
`40/x86_64/`. -/
theorem claim8_witness :
    (parseVersionFromDistro (cs "ab1c23") = [] ↔
      ∀ c ∈ cs "ab1c23", c.isDigit = false) ∧
    getPackageVersion { version := [] }
        { filename := cs "in/p.rpm",
          metadata := [(cs "DistroVersion",
            MetaVal.str (getDistroVersion [] [] (cs ".fc40")))] } = cs "40" ∧
    (generateForVersionArch (fun st => st) (fun st => st) (fun _ => [])
        (fun _ => []) 0 (cs "out")
        (getPackageVersion { version := [] }
          { filename := cs "in/p.rpm",
            metadata := [(cs "DistroVersion",
              MetaVal.str (getDistroVersion [] [] (cs ".fc40")))] })
        (cs "x86_64")
        [{ filename := cs "in/p.rpm",
           metadata := [(cs "DistroVersion",
             MetaVal.str (getDistroVersion [] [] (cs ".fc40")))] }] none).copies
      = [(cs "in/p.rpm",
          cs "out" ++ cs "/" ++ cs "40" ++ cs "/" ++ cs "x86_64" ++ cs "/Packages"
            ++ cs "/" ++ baseName (cs "in/p.rpm"))] := by
  have h := claim8_theorem (cs "ab1c23") { version := [] }
    { filename := cs "in/p.rpm",
      metadata := [(cs "DistroVersion",
        MetaVal.str (getDistroVersion [] [] (cs ".fc40")))] }
    (cs ".fc40") (fun st => st) (fun st => st) (fun _ => []) (fun _ => []) 0
    (cs "out") (cs "x86_64") none rfl (by decide) (by decide)
  exact ⟨h.1, h.2.2.1, h.2.2.2⟩

/-- C8, counterexample: an RPM whose DISTTAG contains "fc40" (DISTTAG
"fc39.fc40", which is "fc39." ++ "fc40"), generated with no explicit
version flag and empty DISTURL/DISTRIBUTION, is placed under 39/, not 40/:
the leftmost fc-digits match wins. -/
theorem claim8_counterexample :
    cs "fc39.fc40" = cs "fc39." ++ cs "fc40" ∧
    getPackageVersion { version := [] }
        { filename := cs "in/p.rpm",
          metadata := [(cs "DistroVersion",
            MetaVal.str (getDistroVersion [] [] (cs "fc39.fc40")))] } = cs "39" ∧
    (generateForVersionArch (fun st => st) (fun st => st) (fun _ => [])
        (fun _ => []) 0 (cs "out")
        (getPackageVersion { version := [] }
          { filename := cs "in/p.rpm",
            metadata := [(cs "DistroVersion",
              MetaVal.str (getDistroVersion [] [] (cs "fc39.fc40")))] })
        (cs "x86_64")
        [{ filename := cs "in/p.rpm",
           metadata := [(cs "DistroVersion",
             MetaVal.str (getDistroVersion [] [] (cs "fc39.fc40")))] }] none).copies
      = [(cs "in/p.rpm", cs "out/39/x86_64/Packages/p.rpm")] ∧
    cs "39" ≠ cs "40" := by
  refine ⟨by decide, by decide, by decide, by decide⟩

/- Alpine generator (internal/generator/apk/generator.go). The `C:` field
re-encodes the hex SHA1 string: hex-decode to raw digest bytes, then
standard base64 with a "Q1" prefix. Hex and base64 are implemented here
concretely, mirroring Go's encoding/hex and encoding/base64.StdEncoding. -/

/-- Value of one hex digit (Go `encoding/hex.fromHexChar`). -/
def hexVal (c : Char) : Option Nat :=
  if '0' ≤ c ∧ c ≤ '9' then some (c.toNat - 48)
  else if 'a' ≤ c ∧ c ≤ 'f' then some (c.toNat - 87)
  else if 'A' ≤ c ∧ c ≤ 'F' then some (c.toNat - 55)
  else none

/-- Go `hex.DecodeString`: bytes of a hex string; `none` on odd length or
an invalid digit. -/
def hexDecode : Str → Option (List Nat)
  | [] => some []
  | [_] => none
  | a :: b :: rest =>
    match hexVal a, hexVal b, hexDecode rest with
    | some ha, some hb, some bs => some ((16 * ha + hb) :: bs)
    | _, _, _ => none

/-- The base64 standard alphabet. -/
def b64Alphabet : Str :=
  cs "ABCDEFGHIJKLMNOPQRSTUVWXYZabcdefghijklmnopqrstuvwxyz0123456789+/"

/-- Character for a 6-bit group. -/
def b64Char (n : Nat) : Char := b64Alphabet.getD n '?'

/-- Go `base64.StdEncoding.EncodeToString` over byte values. -/
def base64Std : List Nat → Str
  | [] => []
  | [b1] => [b64Char (b1 / 4), b64Char ((b1 % 4) * 16), '=', '=']
  | [b1, b2] =>
    [b64Char (b1 / 4), b64Char ((b1 % 4) * 16 + b2 / 16), b64Char ((b2 % 16) * 4), '=']
  | b1 :: b2 :: b3 :: rest =>
    b64Char (b1 / 4) :: b64Char ((b1 % 4) * 16 + b2 / 16) ::
      b64Char ((b2 % 16) * 4 + b3 / 64) :: b64Char (b3 % 64) :: base64Std rest

/-- Go `strings.Join`. -/
def joinStrs (sep : Str) : List Str → Str
  | [] => []
  | [x] => x
  | x :: rest => x ++ sep ++ joinStrs sep rest

/-- A sequence of `Fprintf("...\n")` calls: every line followed by a
newline. -/
def joinNl (lines : List Str) : Str :=
  lines.foldr (fun l acc => l ++ '\n' :: acc) []

/-- The lines generateAPKINDEX emits for one package, given its computed
`C:` checksum field. -/
def apkEntryLines (pkg : Package) (checksum : Str) : List Str :=
  [cs "C:" ++ checksum,
   cs "P:" ++ pkg.name,
   cs "V:" ++ pkg.version,
   cs "A:" ++ pkg.architecture,
   cs "S:" ++ intStr pkg.size]
  ++ (match lookupMetaInt pkg.metadata (cs "installed_size") with
      | some isize => [cs "I:" ++ intStr isize]
      | none => [])
  ++ (if pkg.description ≠ [] then [cs "T:" ++ pkg.description] else [])
  ++ (if pkg.homepage ≠ [] then [cs "U:" ++ pkg.homepage] else [])
  ++ (if pkg.license ≠ [] then [cs "L:" ++ pkg.license] else [])
  ++ (if pkg.dependencies ≠ [] then
        [cs "D:" ++ joinStrs (cs " ") pkg.dependencies] else [])

/-- One package's APKINDEX block. -/
def apkBlock (pkg : Package) (checksum : Str) : Str :=
  joinNl (apkEntryLines pkg checksum)

/-- generateAPKINDEX per-package loop: decode the SHA1 hex string (first
failure aborts), prefix "Q1" to the base64 of the raw bytes. -/
def apkBlocks : List Package → Except Str (List Str)
  | [] => Except.ok []
  | pkg :: rest =>
    match hexDecode pkg.sha1sum with
    | none => Except.error (cs "failed to decode SHA1 for " ++ pkg.name)
    | some bs =>
      match apkBlocks rest with
      | Except.ok blocks => Except.ok (apkBlock pkg (cs "Q1" ++ base64Std bs) :: blocks)
      | Except.error e => Except.error e

/-- generateAPKINDEX: blocks joined with one blank line between entries
(a bare "\n" after each block except the last). -/
def generateAPKINDEX (packages : List Package) : Except Str Str :=
  (apkBlocks packages).map (joinStrs (cs "\n"))

instance {ε α : Type} [DecidableEq ε] [DecidableEq α] : DecidableEq (Except ε α) :=
  fun x y =>
    match x, y with
    | Except.ok a, Except.ok b =>
      if h : a = b then isTrue (by rw [h]) else
        isFalse (by intro hh; cases hh; exact h rfl)
    | Except.error a, Except.error b =>
      if h : a = b then isTrue (by rw [h]) else
        isFalse (by intro hh; cases hh; exact h rfl)
    | Except.ok _, Except.error _ => isFalse (by intro hh; cases hh)
    | Except.error _, Except.ok _ => isFalse (by intro hh; cases hh)

theorem base64Std_length : ∀ bs : List Nat, (base64Std bs).length = 4 * ((bs.length + 2) / 3)
  | [] => by simp [base64Std]
  | [_] => by simp [base64Std]
  | [_, _] => by simp [base64Std]
  | b1 :: b2 :: b3 :: rest => by
    rw [base64Std]
    simp only [List.length_cons]
    rw [base64Std_length rest]
    omega

theorem hexDecode_length : ∀ (s : Str) (bs : List Nat), hexDecode s = some bs →
    s.length = 2 * bs.length
  | [], bs, h => by cases h; rfl
  | [_], bs, h => by cases h
  | a :: b :: rest, bs, h => by
    rw [hexDecode] at h
    cases ha : hexVal a with
    | none => rw [ha] at h; cases h
    | some va =>
      cases hb : hexVal b with
      | none => rw [ha, hb] at h; cases h
      | some vb =>
        cases hr : hexDecode rest with
        | none => rw [ha, hb, hr] at h; cases h
        | some brest =>
          rw [ha, hb, hr] at h
          cases h
          have := hexDecode_length rest brest hr
          simp only [List.length_cons]
          omega

/-- C5: every emitted `C:` field is "Q1" followed by the standard base64
of the raw bytes obtained by hex-decoding the package's SHA1 checksum
string, and (for a 40-character hex SHA1) that differs from base64 of the
hex string's own bytes. -/
theorem claim5_theorem (packages : List Package) (blocks : List Str)
    (h : apkBlocks packages = Except.ok blocks) :
    blocks.length = packages.length ∧
    generateAPKINDEX packages = Except.ok (joinStrs (cs "\n") blocks) ∧
    ∀ pkg ∈ packages, ∃ bs,
      hexDecode pkg.sha1sum = some bs ∧
      apkBlock pkg (cs "Q1" ++ base64Std bs) ∈ blocks ∧
      (∃ rest, apkBlock pkg (cs "Q1" ++ base64Std bs)
        = cs "C:Q1" ++ base64Std bs ++ '\n' :: rest) ∧
      (pkg.sha1sum.length = 40 →
        base64Std bs ≠ base64Std (pkg.sha1sum.map Char.toNat)) := by
  have hmain : ∀ (ps : List Package) (bl : List Str), apkBlocks ps = Except.ok bl →
      bl.length = ps.length ∧
      ∀ pkg ∈ ps, ∃ bs,
        hexDecode pkg.sha1sum = some bs ∧
        apkBlock pkg (cs "Q1" ++ base64Std bs) ∈ bl := by
    intro ps
    induction ps with
    | nil =>
      intro bl hbl
      cases hbl
      exact ⟨rfl, by intro pkg hp; cases hp⟩
    | cons p rest ih =>
      intro bl hbl
      rw [apkBlocks] at hbl
      cases hd : hexDecode p.sha1sum with
      | none => rw [hd] at hbl; cases hbl
      | some bs =>
        rw [hd] at hbl
        cases hrest : apkBlocks rest with
        | error e => rw [hrest] at hbl; cases hbl
        | ok blrest =>
          rw [hrest] at hbl
          cases hbl
          obtain ⟨hlen, hall⟩ := ih blrest hrest
          refine ⟨by simp [hlen], ?_⟩
          intro pkg hp
          cases hp with
          | head =>
            exact ⟨bs, hd, List.mem_cons_self _ _⟩
          | tail _ hmem =>
            obtain ⟨bs', hbs', hmemb⟩ := hall pkg hmem
            exact ⟨bs', hbs', List.mem_cons_of_mem _ hmemb⟩
  obtain ⟨hlen, hall⟩ := hmain packages blocks h
  refine ⟨hlen, ?_, ?_⟩
  · rw [generateAPKINDEX, h]
    rfl
  · intro pkg hp
    obtain ⟨bs, hbs, hmemb⟩ := hall pkg hp
    refine ⟨bs, hbs, hmemb, ?_, ?_⟩
    · refine ⟨joinNl (apkEntryLines pkg (cs "Q1" ++ base64Std bs)).tail, ?_⟩
      show joinNl (apkEntryLines pkg (cs "Q1" ++ base64Std bs)) = _
      rw [apkEntryLines]
      show (cs "C:" ++ (cs "Q1" ++ base64Std bs)) ++ '\n' :: _ = _
      rw [← List.append_assoc]
      rfl
    · intro hlen40 heq
      have h1 : bs.length = 20 := by
        have := hexDecode_length pkg.sha1sum bs hbs
        omega
      have h2 := base64Std_length bs
      have h3 := base64Std_length (pkg.sha1sum.map Char.toNat)
      rw [heq] at h2
      rw [List.length_map, hlen40] at h3
      rw [h1] at h2
      rw [h3] at h2
      omega

/-- C5, witness at a concrete 40-character SHA1 hex string. -/
theorem claim5_witness :
    generateAPKINDEX
        [{ name := cs "pkg", version := cs "1.0", architecture := cs "x86_64",
           sha1sum := cs "0123456789abcdef0123456789abcdef01234567" }]
      = Except.ok (joinStrs (cs "\n")
          [apkBlock
            { name := cs "pkg", version := cs "1.0", architecture := cs "x86_64",
              sha1sum := cs "0123456789abcdef0123456789abcdef01234567" }
            (cs "Q1" ++ base64Std
              [1, 35, 69, 103, 137, 171, 205, 239, 1, 35, 69, 103, 137, 171, 205,
               239, 1, 35, 69, 103])]) ∧
    base64Std [1, 35, 69, 103, 137, 171, 205, 239, 1, 35, 69, 103, 137, 171, 205,
               239, 1, 35, 69, 103]
      ≠ base64Std ((cs "0123456789abcdef0123456789abcdef01234567").map Char.toNat) := by
  have h := claim5_theorem
    [{ name := cs "pkg", version := cs "1.0", architecture := cs "x86_64",
       sha1sum := cs "0123456789abcdef0123456789abcdef01234567" }]
    [apkBlock
      { name := cs "pkg", version := cs "1.0", architecture := cs "x86_64",
        sha1sum := cs "0123456789abcdef0123456789abcdef01234567" }
      (cs "Q1" ++ base64Std
        [1, 35, 69, 103, 137, 171, 205, 239, 1, 35, 69, 103, 137, 171, 205,
         239, 1, 35, 69, 103])]
    (by decide)
  refine ⟨h.2.1, ?_⟩
  obtain ⟨bs, hbs, -, -, hne⟩ := h.2.2 _ (List.mem_cons_self _ _)
  have hbs' : bs = [1, 35, 69, 103, 137, 171, 205, 239, 1, 35, 69, 103, 137, 171,
      205, 239, 1, 35, 69, 103] := by
    have : hexDecode (cs "0123456789abcdef0123456789abcdef01234567")
        = some [1, 35, 69, 103, 137, 171, 205, 239, 1, 35, 69, 103, 137, 171,
                205, 239, 1, 35, 69, 103] := by decide
    rw [this] at hbs
    cases hbs
    rfl
  rw [← hbs']
  exact hne (by decide)

/- internal/utils/fileops.go — ShouldCopyPackage. The filesystem is
abstracted as a stat oracle (size or non-existence or a stat error) and a
SHA256 oracle (CalculateChecksums on the destination, which may fail).
`filepath.Clean`/`filepath.Join` are implemented with Go's (unix)
semantics. -/

/-- Split on a character; always returns one part more than the number of
separators. -/
def splitOnChar (c : Char) : Str → List Str
  | [] => [[]]
  | d :: rest =>
    let r := splitOnChar c rest
    if d = c then [] :: r
    else
      match r with
      | h :: t => (d :: h) :: t
      | [] => [[d]]

/-- The component stack of `filepath.Clean`: "" and "." are dropped, ".."
pops (at the root it vanishes; in a relative path it accumulates), others
push. -/
def cleanStack (rooted : Bool) : List Str → List Str → List Str
  | stack, [] => stack
  | stack, comp :: rest =>
    if comp = [] ∨ comp = cs "." then cleanStack rooted stack rest
    else if comp = cs ".." then
      if rooted then
        match stack with
        | [] => cleanStack rooted [] rest
        | _ => cleanStack rooted stack.dropLast rest
      else
        match stack.getLast? with
        | some lc =>
          if lc = cs ".." then cleanStack rooted (stack ++ [comp]) rest
          else cleanStack rooted stack.dropLast rest
        | none => cleanStack rooted (stack ++ [comp]) rest
    else cleanStack rooted (stack ++ [comp]) rest

/-- Go `filepath.Clean` (unix rules). -/
def cleanPath (p : Str) : Str :=
  if p = [] then cs "."
  else
    let rooted := p.head? = some '/'
    let stack := cleanStack rooted [] (splitOnChar '/' p)
    let res := joinStrs (cs "/") stack
    if rooted then '/' :: res
    else if res = [] then cs "." else res

/-- Go `filepath.Join` of two elements: empty elements are dropped, the
rest joined with "/" and cleaned; "" when both are empty. -/
def joinPath (a b : Str) : Str :=
  if a = [] ∧ b = [] then []
  else if a = [] then cleanPath b
  else if b = [] then cleanPath a
  else cleanPath (a ++ cs "/" ++ b)

/-- Result of an `os.Stat` call: a size, non-existence, or another error. -/
inductive StatRes where
  | found (size : Int)
  | notExist
  | err
deriving DecidableEq

/-- The (srcPath, dstPath, needsCopy) result of ShouldCopyPackage. -/
structure CopyDecision where
  srcPath : Str
  dstPath : Str
  needsCopy : Bool
deriving DecidableEq

/-- The decision ShouldCopyPackage takes once a source file has been
resolved: same path means no copy; an absent destination, a size
mismatch, or (at equal sizes, with a non-empty package SHA256) an
uncomputable or different destination SHA256 means copy. -/
def shouldCopyDecide (statF : Str → StatRes) (shaF : Str → Option Str)
    (pkg : Package) (srcPath : Str) (srcSize : Int) (dstPath : Str) :
    Except Str CopyDecision :=
  if srcPath = dstPath then Except.ok ⟨srcPath, dstPath, false⟩
  else
    match statF dstPath with
    | StatRes.notExist => Except.ok ⟨srcPath, dstPath, true⟩
    | StatRes.err => Except.error (cs "cannot stat destination")
    | StatRes.found dstSize =>
      if srcSize ≠ dstSize then Except.ok ⟨srcPath, dstPath, true⟩
      else if pkg.sha256sum ≠ [] then
        match shaF dstPath with
        | none => Except.ok ⟨srcPath, dstPath, true⟩
        | some dstSha =>
          if pkg.sha256sum ≠ dstSha then Except.ok ⟨srcPath, dstPath, true⟩
          else Except.ok ⟨srcPath, dstPath, false⟩
      else Except.ok ⟨srcPath, dstPath, false⟩

/-- ShouldCopyPackage: try the package's filename as given, then
outputDir joined with the filename; a source absent at both locations is
"no copy needed" without error. Note any first-stat failure (not only
non-existence) falls through to the second location, mirroring
`isNewPackage := (err == nil)`. -/
def ShouldCopyPackage (statF : Str → StatRes) (shaF : Str → Option Str)
    (pkg : Package) (dstPath0 outputDir0 : Str) : Except Str CopyDecision :=
  let dstPath := cleanPath dstPath0
  let outputDir := cleanPath outputDir0
  let srcPath1 := cleanPath pkg.filename
  match statF srcPath1 with
  | StatRes.found srcSize => shouldCopyDecide statF shaF pkg srcPath1 srcSize dstPath
  | _ =>
    let srcPath2 := cleanPath (joinPath outputDir pkg.filename)
    match statF srcPath2 with
    | StatRes.notExist => Except.ok ⟨srcPath2, dstPath, false⟩
    | StatRes.err => Except.error (cs "cannot stat source")
    | StatRes.found srcSize => shouldCopyDecide statF shaF pkg srcPath2 srcSize dstPath

/-- C7, amended: the decision resolves the source first at the package's
filename, then at the output root joined with the filename; a source
absent at both locations is "no copy needed" without error; otherwise,
when the resolved source path differs from the destination path, copy is
needed exactly when the destination is absent, the sizes differ, or
(sizes equal, non-empty package SHA256) the destination's SHA256 differs
— but when source and destination resolve to the same cleaned path, no
copy is needed regardless of the recorded checksum. -/
theorem claim7_theorem (statF : Str → StatRes) (shaF : Str → Option Str)
    (pkg : Package) (dstPath0 outputDir0 : Str) :
    (∀ n, statF (cleanPath pkg.filename) = StatRes.found n →
      ShouldCopyPackage statF shaF pkg dstPath0 outputDir0
        = shouldCopyDecide statF shaF pkg (cleanPath pkg.filename) n
            (cleanPath dstPath0)) ∧
    (statF (cleanPath pkg.filename) = StatRes.notExist →
     statF (cleanPath (joinPath (cleanPath outputDir0) pkg.filename))
       = StatRes.notExist →
      ShouldCopyPackage statF shaF pkg dstPath0 outputDir0
        = Except.ok ⟨cleanPath (joinPath (cleanPath outputDir0) pkg.filename),
            cleanPath dstPath0, false⟩) ∧
    (∀ n, statF (cleanPath pkg.filename) = StatRes.notExist →
     statF (cleanPath (joinPath (cleanPath outputDir0) pkg.filename))
       = StatRes.found n →
      ShouldCopyPackage statF shaF pkg dstPath0 outputDir0
        = shouldCopyDecide statF shaF pkg
            (cleanPath (joinPath (cleanPath outputDir0) pkg.filename)) n
            (cleanPath dstPath0)) ∧
    (∀ src n, src = cleanPath dstPath0 →
      shouldCopyDecide statF shaF pkg src n (cleanPath dstPath0)
        = Except.ok ⟨src, cleanPath dstPath0, false⟩) ∧
    (∀ src n hsh, src ≠ cleanPath dstPath0 →
      shaF (cleanPath dstPath0) = some hsh →
      statF (cleanPath dstPath0) ≠ StatRes.err →
      ∃ b, shouldCopyDecide statF shaF pkg src n (cleanPath dstPath0)
          = Except.ok ⟨src, cleanPath dstPath0, b⟩ ∧
        (b = true ↔
          (statF (cleanPath dstPath0) = StatRes.notExist ∨
           ∃ m, statF (cleanPath dstPath0) = StatRes.found m ∧
             (m ≠ n ∨ (pkg.sha256sum ≠ [] ∧ pkg.sha256sum ≠ hsh))))) := by
  refine ⟨?_, ?_, ?_, ?_, ?_⟩
  · intro n h
    simp only [ShouldCopyPackage]
    rw [h]
  · intro h1 h2
    simp only [ShouldCopyPackage]
    rw [h1, h2]
  · intro n h1 h2
    simp only [ShouldCopyPackage]
    rw [h1, h2]
  · intro src n h
    simp only [shouldCopyDecide]
    rw [if_pos h]
  · intro src n hsh hne hsha hnerr
    simp only [shouldCopyDecide]
    rw [if_neg hne]
    cases hdst : statF (cleanPath dstPath0) with
    | notExist =>
      refine ⟨true, rfl, ⟨fun _ => Or.inl rfl, fun _ => rfl⟩⟩
    | err => exact absurd hdst hnerr
    | found m =>
      dsimp only
      by_cases hsz : n ≠ m
      · rw [if_pos hsz]
        exact ⟨true, rfl, ⟨fun _ => Or.inr ⟨m, rfl, Or.inl (Ne.symm hsz)⟩, fun _ => rfl⟩⟩
      · rw [if_neg hsz]
        have hnm : n = m := by omega
        by_cases hshaE : pkg.sha256sum ≠ []
        · rw [if_pos hshaE, hsha]
          dsimp only
          by_cases hdiff : pkg.sha256sum ≠ hsh
          · rw [if_pos hdiff]
            exact ⟨true, rfl, ⟨fun _ => Or.inr ⟨m, rfl, Or.inr ⟨hshaE, hdiff⟩⟩,
              fun _ => rfl⟩⟩
          · rw [if_neg hdiff]
            refine ⟨false, rfl, ⟨fun hb => absurd hb (by decide), fun hp => ?_⟩⟩
            exfalso
            cases hp with
            | inl habs => cases habs
            | inr hex =>
              obtain ⟨m', hm', hor⟩ := hex
              cases hm'
              cases hor with
              | inl hne' => exact hne' hnm.symm
              | inr hand => exact hdiff hand.2
        · rw [if_neg hshaE]
          refine ⟨false, rfl, ⟨fun hb => absurd hb (by decide), fun hp => ?_⟩⟩
          exfalso
          cases hp with
          | inl habs => cases habs
          | inr hex =>
            obtain ⟨m', hm', hor⟩ := hex
            cases hm'
            cases hor with
            | inl hne' => exact hne' hnm.symm
            | inr hand => exact hshaE hand.1

/-- C7, witness: a new package at `in/b.deb` copied towards an absent
`out/pool/b.deb` needs a copy. -/
theorem claim7_witness :
    ShouldCopyPackage
        (fun p => if p = cs "in/b.deb" then StatRes.found 7 else StatRes.notExist)
        (fun _ => some (cs "hh"))
        { filename := cs "in/b.deb", sha256sum := cs "s" }
        (cs "out/pool/b.deb") (cs "out")
      = Except.ok ⟨cs "in/b.deb", cs "out/pool/b.deb", true⟩ := by
  have h := claim7_theorem
    (fun p => if p = cs "in/b.deb" then StatRes.found 7 else StatRes.notExist)
    (fun _ => some (cs "hh"))
    { filename := cs "in/b.deb", sha256sum := cs "s" }
    (cs "out/pool/b.deb") (cs "out")
  have h1 := h.1 7 (by decide)
  obtain ⟨b, hb, hiff⟩ := h.2.2.2.2
    (cleanPath (cs "in/b.deb")) 7 (cs "hh") (by decide) (by decide) (by decide)
  have hbt : b = true := hiff.mpr (Or.inl (by decide))
  rw [h1, hb, hbt]
  decide

/-- C7, counterexample: when `pkg.Filename` already equals the cleaned
destination path, the destination exists with equal size, the package has
a non-empty SHA256 and the destination's SHA256 differs, the claim
demands "copy needed" — but the code's same-path early return reports no
copy needed. -/
theorem claim7_counterexample :
    ShouldCopyPackage
        (fun p => if p = cs "out/a.deb" then StatRes.found 5 else StatRes.notExist)
        (fun p => if p = cs "out/a.deb" then some (cs "ffff") else none)
        { filename := cs "out/a.deb", sha256sum := cs "aaaa" }
        (cs "out/a.deb") (cs "out")
      = Except.ok ⟨cs "out/a.deb", cs "out/a.deb", false⟩ ∧
    (fun p => if p = cs "out/a.deb" then StatRes.found 5 else StatRes.notExist)
        (cleanPath (cs "out/a.deb")) = StatRes.found 5 ∧
    (fun p => if p = cs "out/a.deb" then some (cs "ffff") else none)
        (cleanPath (cs "out/a.deb")) = some (cs "ffff") ∧
    (cs "aaaa" : Str) ≠ [] ∧ (cs "aaaa" : Str) ≠ cs "ffff" := by
  refine ⟨by decide, by decide, by decide, by decide, by decide⟩

/- Pacman generator (internal/generator/pacman/generator.go). The tar
serialization and zstd compression of the database are abstracted as
function parameters over the list of tar entries the code writes. -/

/-- ASCII lowering of `strings.ToLower` (the repo names in play are
ASCII). -/
def toLowerChar (c : Char) : Char :=
  if 'A' ≤ c ∧ c ≤ 'Z' then Char.ofNat (c.toNat + 32) else c

/-- sanitizeRepoName: lower-case, spaces to hyphens, anything but
[a-z0-9-] to hyphens. -/
def sanitizeRepoName (name : Str) : Str :=
  let n1 := name.map toLowerChar
  let n2 := n1.map (fun c => if c = ' ' then '-' else c)
  n2.map (fun c =>
    if ('a' ≤ c ∧ c ≤ 'z') ∨ ('0' ≤ c ∧ c ≤ '9') ∨ c = '-' then c else '-')

/-- One `%FIELD%\nvalue\n\n` block, emitted only for non-empty values. -/
def pacmanWriteField (name value : Str) : Str :=
  if value ≠ [] then cs "%" ++ name ++ cs "%\n" ++ value ++ cs "\n\n" else []

/-- generateDescFile: the desc blocks for one package. -/
def generateDescFile (pkg : Package) : Str :=
  pacmanWriteField (cs "FILENAME") pkg.filename ++
  pacmanWriteField (cs "NAME") pkg.name ++
  pacmanWriteField (cs "VERSION") pkg.version ++
  pacmanWriteField (cs "DESC") pkg.description ++
  pacmanWriteField (cs "CSIZE") (intStr pkg.size) ++
  (match lookupMetaStr pkg.metadata (cs "InstalledSize") with
   | some isize => pacmanWriteField (cs "ISIZE") isize
   | none => []) ++
  pacmanWriteField (cs "MD5SUM") pkg.md5sum ++
  pacmanWriteField (cs "SHA256SUM") pkg.sha256sum ++
  pacmanWriteField (cs "ARCH") pkg.architecture ++
  (match lookupMetaStr pkg.metadata (cs "BuildDate") with
   | some bd => pacmanWriteField (cs "BUILDDATE") bd
   | none => []) ++
  pacmanWriteField (cs "PACKAGER") pkg.maintainer ++
  pacmanWriteField (cs "URL") pkg.homepage ++
  pacmanWriteField (cs "LICENSE") pkg.license ++
  (if pkg.dependencies ≠ [] then
    cs "%DEPENDS%\n" ++ pkg.dependencies.foldr (fun d acc => d ++ '\n' :: acc) []
      ++ cs "\n"
   else [])

/-- Entries of the database tar archive. -/
inductive TarEntry where
  | dir (name : Str)
  | file (name : Str) (content : Str)
deriving DecidableEq

/-- generateDatabase's tar layout: a `name-version/` directory entry and a
`name-version/desc` file per package. -/
def pacmanDbEntries (packages : List Package) : List TarEntry :=
  packages.foldr (fun pkg acc =>
    let dirName := pkg.name ++ cs "-" ++ pkg.version ++ cs "/"
    TarEntry.dir dirName :: TarEntry.file (dirName ++ cs "desc") (generateDescFile pkg)
      :: acc) []

/-- File copies and WriteFile calls of one Pacman architecture run. -/
structure PacmanArchOut where
  copies : List (Str × Str)
  writes : List (Str × Str)
deriving DecidableEq

/-- generateForArch: copy the packages beside the database, write
`<dbName>.db.tar.zst` (the database name from RepoName, else Origin, else
"custom"), and `.sig` siblings when a signer is configured. No other file
is written — in particular no `<dbName>.db`. -/
def pacmanGenerateForArch (tarF : List TarEntry → Str) (zstdF : Str → Str)
    (signDetached : Option (Str → Str)) (readFileF : Str → Str)
    (config : RepositoryConfig) (arch : Str) (packages : List Package) :
    PacmanArchOut :=
  let archDir := config.outputDir ++ cs "/" ++ arch
  let copies := packages.map (fun p => (p.filename, archDir ++ cs "/" ++ baseName p.filename))
  let packages' := packages.map (fun p => { p with filename := baseName p.filename })
  let dbName :=
    if config.repoName ≠ [] then sanitizeRepoName config.repoName
    else if config.origin ≠ [] then sanitizeRepoName config.origin
    else cs "custom"
  let dbData := zstdF (tarF (pacmanDbEntries packages'))
  let dbPath := archDir ++ cs "/" ++ dbName ++ cs ".db.tar.zst"
  let sigWrites :=
    match signDetached with
    | some signF =>
      [(dbPath ++ cs ".sig", signF dbData)] ++
      packages'.map (fun p =>
        (archDir ++ cs "/" ++ p.filename ++ cs ".sig",
         signF (readFileF (archDir ++ cs "/" ++ p.filename))))
    | none => []
  { copies := copies, writes := [(dbPath, dbData)] ++ sigWrites }

/-- C6: in an unsigned Pacman run the only WriteFile call is the
`.db.tar.zst` database; the `<dbName>.db` sibling the spec (and the
repo's own README and tests) require is never written — also checked at
the concrete input of the repo's TestGenerateCreatesDbFile (RepoName
"test-repo", one x86_64 package), where `out/x86_64/test-repo.db` appears
neither among the run's writes nor its copy destinations. -/
theorem claim6_theorem (tarF : List TarEntry → Str) (zstdF : Str → Str)
    (readFileF : Str → Str) (config : RepositoryConfig) (arch : Str)
    (packages : List Package) :
    ((pacmanGenerateForArch tarF zstdF none readFileF config arch packages).writes.map
        Prod.fst
      = [config.outputDir ++ cs "/" ++ arch ++ cs "/" ++
          (if config.repoName ≠ [] then sanitizeRepoName config.repoName
           else if config.origin ≠ [] then sanitizeRepoName config.origin
           else cs "custom") ++ cs ".db.tar.zst"]) ∧
    (config.outputDir ++ cs "/" ++ arch ++ cs "/" ++
        (if config.repoName ≠ [] then sanitizeRepoName config.repoName
         else if config.origin ≠ [] then sanitizeRepoName config.origin
         else cs "custom") ++ cs ".db")
      ∉ (pacmanGenerateForArch tarF zstdF none readFileF config arch
          packages).writes.map Prod.fst ∧
    ((pacmanGenerateForArch (fun _ => cs "T") (fun st => 'z' :: st) none
        (fun _ => [])
        { outputDir := cs "out", repoName := cs "test-repo",
          arches := [cs "x86_64"] }
        (cs "x86_64")
        [{ name := cs "test-pkg", version := cs "1.0-1",
           architecture := cs "x86_64", description := cs "Test package",
           filename := cs "out/test-pkg-1.0-1-x86_64.pkg.tar.zst", size := 100,
           md5sum := cs "test-md5", sha256sum := cs "test-sha256" }]).writes.map
        Prod.fst
      = [cs "out/x86_64/test-repo.db.tar.zst"]) ∧
    cs "out/x86_64/test-repo.db"
      ∉ (pacmanGenerateForArch (fun _ => cs "T") (fun st => 'z' :: st) none
          (fun _ => [])
          { outputDir := cs "out", repoName := cs "test-repo",
            arches := [cs "x86_64"] }
          (cs "x86_64")
          [{ name := cs "test-pkg", version := cs "1.0-1",
             architecture := cs "x86_64", description := cs "Test package",
             filename := cs "out/test-pkg-1.0-1-x86_64.pkg.tar.zst", size := 100,
             md5sum := cs "test-md5", sha256sum := cs "test-sha256" }]).writes.map
          Prod.fst ∧
    cs "out/x86_64/test-repo.db"
      ∉ (pacmanGenerateForArch (fun _ => cs "T") (fun st => 'z' :: st) none
          (fun _ => [])
          { outputDir := cs "out", repoName := cs "test-repo",
            arches := [cs "x86_64"] }
          (cs "x86_64")
          [{ name := cs "test-pkg", version := cs "1.0-1",
             architecture := cs "x86_64", description := cs "Test package",
             filename := cs "out/test-pkg-1.0-1-x86_64.pkg.tar.zst", size := 100,
             md5sum := cs "test-md5", sha256sum := cs "test-sha256" }]).copies.map
          Prod.snd := by
  refine ⟨rfl, ?_, by decide, by decide, by decide⟩
  intro hmem
  simp only [pacmanGenerateForArch, List.append_nil, List.map_cons, List.map_nil,
    List.mem_singleton] at hmem
  have hlen := congrArg List.length hmem
  simp only [List.length_append] at hlen
  have h3 : (cs ".db").length = 3 := rfl
  have h11 : (cs ".db.tar.zst").length = 11 := rfl
  omega

/- Debian codec and generator (internal/generator/deb). -/

/-- Go bytewise string `<`. -/
def lexLt : Str → Str → Bool
  | [], [] => false
  | [], _ :: _ => true
  | _ :: _, [] => false
  | a :: as, b :: bs => if a < b then true else if b < a then false else lexLt as bs

/-- The `sort.Slice` by name (an unstable sort in Go; any sort by the same
key is a faithful model up to the order of equal keys, which the
round-trip statement is insensitive to). -/
def sortPackages (packages : List Package) : List Package :=
  List.insertionSort (fun p q => lexLt q.name p.name = false) packages

/-- Go `%v` of a Metadata value. -/
def metaValStr : MetaVal → Str
  | MetaVal.str v => v
  | MetaVal.int n => intStr n

/-- The Metadata keys GeneratePackagesFile skips (already emitted from the
record's own fields). -/
def debSkipKey (k : Str) : Bool :=
  k = cs "Package" ∨ k = cs "Version" ∨ k = cs "Architecture" ∨
  k = cs "Maintainer" ∨ k = cs "Homepage" ∨ k = cs "Description" ∨
  k = cs "Depends"

/-- The lines GeneratePackagesFile emits for one package (each line is one
`Fprintf("...\n")`; the trailing empty line is the blank separator). -/
def debPackagesBlockLines (pkg : Package) : List Str :=
  [cs "Package: " ++ pkg.name,
   cs "Version: " ++ pkg.version,
   cs "Architecture: " ++ pkg.architecture,
   cs "Filename: " ++ pkg.filename,
   cs "Size: " ++ intStr pkg.size,
   cs "MD5sum: " ++ pkg.md5sum,
   cs "SHA1: " ++ pkg.sha1sum,
   cs "SHA256: " ++ pkg.sha256sum,
   cs "SHA512: " ++ pkg.sha512sum]
  ++ (if pkg.maintainer ≠ [] then [cs "Maintainer: " ++ pkg.maintainer] else [])
  ++ (if pkg.homepage ≠ [] then [cs "Homepage: " ++ pkg.homepage] else [])
  ++ (if pkg.description ≠ [] then [cs "Description: " ++ pkg.description] else [])
  ++ (if pkg.dependencies ≠ [] then
        [cs "Depends: " ++ joinStrs (cs ", ") pkg.dependencies] else [])
  ++ (pkg.metadata.filter (fun kv => debSkipKey kv.1 = false)).map
       (fun kv => kv.1 ++ cs ": " ++ metaValStr kv.2)
  ++ [[]]

/-- GeneratePackagesFile: blocks of the name-sorted packages. -/
def GeneratePackagesFile (packages : List Package) : Str :=
  joinNl ((sortPackages packages).flatMap debPackagesBlockLines)

/-- `strings.SplitN(line, ": ", 2)`: the parts around the first ": ",
`none` when the separator is absent. -/
def splitColonSp : Str → Option (Str × Str)
  | [] => none
  | [_] => none
  | c1 :: c2 :: rest =>
    if c1 = ':' ∧ c2 = ' ' then some ([], rest)
    else
      match splitColonSp (c2 :: rest) with
      | some (a, b) => some (c1 :: a, b)
      | none => none

/-- `strings.Split(value, ", ")`. -/
def splitCommaSp : Str → List Str
  | [] => [[]]
  | ',' :: ' ' :: rest => [] :: splitCommaSp rest
  | c :: rest =>
    match splitCommaSp rest with
    | h :: t => (c :: h) :: t
    | [] => [[c]]

/-- Decimal value of a digit string. -/
def digitsVal (s : Str) : Int :=
  s.foldl (fun acc c => acc * 10 + ((c.toNat : Int) - 48)) 0

/-- int64 clamping of an out-of-range result (Go ParseInt's ErrRange
behaviour, with the error discarded by the caller). -/
def parseIntClamp (v : Int) : Int :=
  if v < -(2 ^ 63) then -(2 ^ 63)
  else if v > 2 ^ 63 - 1 then 2 ^ 63 - 1
  else v

/-- The digits part of ParseInt: 0 on empty or non-digit input, otherwise
the (possibly negated) value clamped to int64. -/
def parseIntDigits (digits : Str) (neg : Bool) : Int :=
  if digits = [] then 0
  else if digits.all Char.isDigit then
    parseIntClamp (if neg then -digitsVal digits else digitsVal digits)
  else 0

/-- `strconv.ParseInt(s, 10, 64)` with the error discarded: 0 on a syntax
error, the value clamped to int64 on range overflow. -/
def parseIntGo (s : Str) : Int :=
  match s with
  | [] => parseIntDigits [] false
  | c :: rest =>
    if c = '+' then parseIntDigits rest false
    else if c = '-' then parseIntDigits rest true
    else parseIntDigits (c :: rest) false

/-- The parser's field dispatch (parsePackagesReader's switch). A map
assignment is modelled by prepending to the association list (lookup
takes the first binding). -/
def applyPackagesField (pkg : Package) (field value : Str) : Package :=
  if field = cs "Package" then { pkg with name := value }
  else if field = cs "Version" then { pkg with version := value }
  else if field = cs "Architecture" then { pkg with architecture := value }
  else if field = cs "Filename" then { pkg with filename := value }
  else if field = cs "Size" then { pkg with size := parseIntGo value }
  else if field = cs "MD5sum" then { pkg with md5sum := value }
  else if field = cs "SHA1" then { pkg with sha1sum := value }
  else if field = cs "SHA256" then { pkg with sha256sum := value }
  else if field = cs "SHA512" then { pkg with sha512sum := value }
  else if field = cs "Description" then { pkg with description := value }
  else if field = cs "Maintainer" then { pkg with maintainer := value }
  else if field = cs "Homepage" then { pkg with homepage := value }
  else if field = cs "Depends" then { pkg with dependencies := splitCommaSp value }
  else { pkg with metadata := (field, MetaVal.str value) :: pkg.metadata }

/-- `bufio.ScanLines`' dropCR: strip one trailing '\r' from a line. -/
def dropCR (l : Str) : Str :=
  if l.getLast? = some '\r' then l.dropLast else l

/-- `bufio.Scanner` lines with `bufio.ScanLines`: split on '\n', strip one
trailing '\r' from each token (dropCR); a trailing newline yields no final
empty token, and empty input yields no tokens. -/
def goLines (s : Str) : List Str :=
  if s = [] then []
  else
    let parts := splitOnChar '\n' s
    (if parts.getLast? = some [] then parts.dropLast else parts).map dropCR

/-- parsePackagesReader's scan loop over lines: a blank line flushes the
current package, a `field: value` line updates it (creating it first if
needed), any other line is skipped. -/
def parsePackagesLines : List Str → Option Package → List Package
  | [], cur =>
    match cur with
    | none => []
    | some p => [p]
  | line :: rest, cur =>
    if line = [] then
      match cur with
      | some p => p :: parsePackagesLines rest none
      | none => parsePackagesLines rest none
    else
      match splitColonSp line with
      | none => parsePackagesLines rest cur
      | some (field, value) =>
        parsePackagesLines rest (some (applyPackagesField (cur.getD {}) field value))

/-- parsePackagesReader. -/
def parsePackagesReader (s : Str) : List Package :=
  parsePackagesLines (goLines s) none

/- Alpine index reader (internal/generator/apk/parser.go,
parseAPKINDEXContent): the same bufio.Scanner line loop over the
Letter:Value format. -/

/-- Value of one standard-alphabet base64 character (the decodeMap). -/
def b64Val (c : Char) : Option Nat :=
  if 'A' ≤ c ∧ c ≤ 'Z' then some (c.toNat - 65)
  else if 'a' ≤ c ∧ c ≤ 'z' then some (c.toNat - 71)
  else if '0' ≤ c ∧ c ≤ '9' then some (c.toNat + 4)
  else if c = '+' then some 62
  else if c = '/' then some 63
  else none

/-- Go `base64.StdEncoding.Decode` quantum loop with the error discarded
(the caller ignores it): decode 4-character groups until the input ends or
a group is malformed, keeping the bytes decoded so far; a final group
closed by "=" or "==" contributes its two or one bytes, an incomplete or
invalid group contributes none. Newlines are skipped beforehand. -/
def b64DecodeQuads : Str → List Nat
  | c1 :: c2 :: c3 :: c4 :: rest =>
    match b64Val c1, b64Val c2 with
    | some v1, some v2 =>
      if c3 = '=' then
        if c4 = '=' then [v1 * 4 + v2 / 16]
        else []
      else
        match b64Val c3 with
        | some v3 =>
          if c4 = '=' then [v1 * 4 + v2 / 16, (v2 % 16) * 16 + v3 / 4]
          else
            match b64Val c4 with
            | some v4 =>
              (v1 * 4 + v2 / 16) :: ((v2 % 16) * 16 + v3 / 4) ::
                ((v3 % 4) * 64 + v4) :: b64DecodeQuads rest
            | none => []
        | none => []
    | _, _ => []
  | _ => []

/-- Go `base64.StdEncoding.DecodeString` with the error discarded: the
quantum loop skips '\r' and '\n' wherever they occur. -/
def b64DecodeGo (s : Str) : List Nat :=
  b64DecodeQuads (s.filter (fun c => c ≠ '\r' ∧ c ≠ '\n'))

/-- Character for one hex nibble (Go hextable, lowercase). -/
def hexDigitChar (n : Nat) : Char := (cs "0123456789abcdef").getD n '?'

/-- Go `hex.EncodeToString` over byte values. -/
def hexEncode : List Nat → Str
  | [] => []
  | b :: rest => hexDigitChar (b / 16) :: hexDigitChar (b % 16) :: hexEncode rest

/-- `unicode.IsSpace` on the ASCII range (what strings.Fields splits on
for ASCII input). -/
def isGoSpace (c : Char) : Bool :=
  c = ' ' ∨ c = '\t' ∨ c = '\n' ∨ c = '\x0B' ∨ c = '\x0C' ∨ c = '\r'

/-- Split at every character satisfying p (empty tokens kept). -/
def splitOnPred (p : Char → Bool) : Str → List Str
  | [] => [[]]
  | c :: rest =>
    if p c then [] :: splitOnPred p rest
    else
      match splitOnPred p rest with
      | h :: t => (c :: h) :: t
      | [] => [[c]]

/-- Go `strings.Fields`: the maximal runs of non-space characters
(splitting at every space and dropping the empty tokens). -/
def goFields (s : Str) : List Str :=
  (splitOnPred isGoSpace s).filter (fun w => w ≠ [])

/-- parseAPKINDEXContent's field dispatch (the switch on the line's first
byte; value is the text after "X:"). A C: value with the "Q1" prefix is
base64-decoded and hex-encoded back into the SHA1 field; I: lands in the
metadata map; D: is split on whitespace. -/
def applyApkField (pkg : Package) (f : Char) (value : Str) : Package :=
  if f = 'C' then
    if value.take 2 = cs "Q1" then
      { pkg with sha1sum := hexEncode (b64DecodeGo (value.drop 2)) }
    else pkg
  else if f = 'P' then { pkg with name := value }
  else if f = 'V' then { pkg with version := value }
  else if f = 'A' then { pkg with architecture := value }
  else if f = 'S' then { pkg with size := parseIntGo value }
  else if f = 'I' then
    { pkg with metadata :=
        (cs "installed_size", MetaVal.int (parseIntGo value)) :: pkg.metadata }
  else if f = 'T' then { pkg with description := value }
  else if f = 'U' then { pkg with homepage := value }
  else if f = 'L' then { pkg with license := value }
  else if f = 'D' then { pkg with dependencies := goFields value }
  else pkg

/-- parseAPKINDEXContent's scan loop: a blank line flushes the current
package, a line of length at least two whose second character is ':'
updates it (creating it first, also for letters outside the switch), any
other line is skipped. -/
def parseApkLines : List Str → Option Package → List Package
  | [], cur =>
    match cur with
    | none => []
    | some p => [p]
  | line :: rest, cur =>
    if line = [] then
      match cur with
      | some p => p :: parseApkLines rest none
      | none => parseApkLines rest none
    else
      match line with
      | f :: ':' :: value =>
        parseApkLines rest (some (applyApkField (cur.getD {}) f value))
      | _ => parseApkLines rest cur

/-- parseAPKINDEXContent: scan the lines, then overwrite each package's
filename with name-version.apk. -/
def parseAPKINDEXContent (s : Str) : List Package :=
  (parseApkLines (goLines s) none).map
    (fun p => { p with filename := p.name ++ cs "-" ++ p.version ++ cs ".apk" })

/-- The pool letter: the name's first byte when in a..z, otherwise "0"
(`pkg.Name[0]` — the Go code panics on an empty name, which the generator
model surfaces as an error before this function is reached). -/
def debPoolLetter (name : Str) : Str :=
  match name with
  | c :: _ => if 'a' ≤ c ∧ c ≤ 'z' then [c] else ['0']
  | [] => ['0']

/-- Architecture defaulted to amd64 when empty (deb Generate's grouping). -/
def debDefaultArch (pkg : Package) : Str :=
  if pkg.architecture = [] then cs "amd64" else pkg.architecture

/-- The repository-root-relative pool path of a package
(`pool/main/<letter>/<name>/<base>`; `filepath.Rel(outputDir, dstPath)`
recovers exactly this since dstPath is built by joining it to outputDir). -/
def debPoolRel (pkg : Package) : Str :=
  cs "pool/main/" ++ debPoolLetter pkg.name ++ cs "/" ++ pkg.name ++ cs "/"
    ++ baseName pkg.filename

/-- File copies and WriteFile calls of a Debian generation run. -/
structure DebOut where
  copies : List (Str × Str)
  writes : List (Str × Str)
deriving DecidableEq

/-- generateForArch: copy each package into the pool, rewrite its
filename to the pool-relative path, then write Packages and Packages.gz
for the architecture. The `pkg.Name[0]` panic on an empty name is
modelled as an error. -/
def debGenerateForArch (gzipF : Str → Str) (config : RepositoryConfig)
    (arch : Str) (packages : List Package) : Except Str DebOut :=
  if packages.any (fun p => p.name = []) then
    Except.error (cs "index out of range")
  else
    let copies := packages.map (fun p =>
      (p.filename, config.outputDir ++ cs "/" ++ debPoolRel p))
    let packages' := packages.map (fun p => { p with filename := debPoolRel p })
    let distsDir := config.outputDir ++ cs "/dists/" ++ config.codename
      ++ cs "/main/binary-" ++ arch
    let packagesData := GeneratePackagesFile packages'
    Except.ok { copies := copies,
                writes := [(distsDir ++ cs "/Packages", packagesData),
                           (distsDir ++ cs "/Packages.gz", gzipF packagesData)] }

/-- The per-architecture loop of deb Generate: each configured
architecture is generated from the packages grouped under it (packages
grouped under no configured architecture are never passed to any
generateForArch call). -/
def debGenerateArches (gzipF : Str → Str) (config : RepositoryConfig)
    (packages : List Package) : List Str → Except Str DebOut
  | [] => Except.ok ⟨[], []⟩
  | arch :: rest =>
    match debGenerateForArch gzipF config arch
        (packages.filter (fun p => debDefaultArch p = arch)) with
    | Except.error e => Except.error e
    | Except.ok out =>
      match debGenerateArches gzipF config packages rest with
      | Except.error e => Except.error e
      | Except.ok outs => Except.ok ⟨out.copies ++ outs.copies, out.writes ++ outs.writes⟩

/-- `internal/utils` Checksum record. -/
structure Checksum where
  md5 : Str
  sha1 : Str
  sha256 : Str
  sha512 : Str
  size : Int
deriving DecidableEq

/-- deb ReleaseFileInfo. -/
structure ReleaseFileInfo where
  path : Str
  checksum : Checksum
deriving DecidableEq

/-- The lines of GenerateReleaseFile (the Date value — `time.Now()` in the
source — is a parameter). -/
def releaseLines (config : RepositoryConfig) (files : List ReleaseFileInfo)
    (date : Str) : List Str :=
  [cs "Origin: " ++ config.origin,
   cs "Label: " ++ config.label,
   cs "Suite: " ++ config.suite,
   cs "Codename: " ++ config.codename,
   cs "Architectures: " ++ joinStrs (cs " ") config.arches,
   cs "Components: " ++ joinStrs (cs " ") config.components,
   cs "Date: " ++ date,
   cs "MD5Sum:"]
  ++ files.map (fun f =>
      cs " " ++ f.checksum.md5 ++ cs " " ++ intStr f.checksum.size ++ cs " " ++ f.path)
  ++ [cs "SHA1:"]
  ++ files.map (fun f =>
      cs " " ++ f.checksum.sha1 ++ cs " " ++ intStr f.checksum.size ++ cs " " ++ f.path)
  ++ [cs "SHA256:"]
  ++ files.map (fun f =>
      cs " " ++ f.checksum.sha256 ++ cs " " ++ intStr f.checksum.size ++ cs " " ++ f.path)
  ++ [cs "SHA512:"]
  ++ files.map (fun f =>
      cs " " ++ f.checksum.sha512 ++ cs " " ++ intStr f.checksum.size ++ cs " " ++ f.path)

/-- GenerateReleaseFile. -/
def GenerateReleaseFile (config : RepositoryConfig) (files : List ReleaseFileInfo)
    (date : Str) : Str :=
  joinNl (releaseLines config files date)

/-- A configured GPG signer (cleartext and detached signing over bytes). -/
structure GPGSignerM where
  signCleartext : Str → Str
  signDetached : Str → Str

/-- generateRelease's WriteFile calls: Release always; with a signer,
InRelease is the cleartext signature and Release.gpg the detached one;
without, InRelease is written with the plain Release bytes and no
Release.gpg write happens. -/
def generateRelease (config : RepositoryConfig) (files : List ReleaseFileInfo)
    (date : Str) (signer : Option GPGSignerM) : List (Str × Str) :=
  let distsDir := config.outputDir ++ cs "/dists/" ++ config.codename
  let releaseData := GenerateReleaseFile config files date
  [(distsDir ++ cs "/Release", releaseData)] ++
  (match signer with
   | some g =>
     [(distsDir ++ cs "/InRelease", g.signCleartext releaseData),
      (distsDir ++ cs "/Release.gpg", g.signDetached releaseData)]
   | none =>
     [(distsDir ++ cs "/InRelease", releaseData)])

/-- generateRelease's metadata file list: Packages and Packages.gz per
component × architecture (architectures outer). -/
def debMetadataFiles (config : RepositoryConfig) : List Str :=
  config.arches.flatMap (fun arch => config.components.flatMap (fun comp =>
    [comp ++ cs "/binary-" ++ arch ++ cs "/Packages",
     comp ++ cs "/binary-" ++ arch ++ cs "/Packages.gz"]))

/-- CalculateReleaseFileInfos over a hashing oracle. -/
def CalculateReleaseFileInfos (hashF : Str → Checksum) (basePath : Str)
    (files : List Str) : List ReleaseFileInfo :=
  files.map (fun f => { path := f, checksum := hashF (basePath ++ cs "/" ++ f) })

/-- deb Generate: the per-architecture runs followed by the Release /
InRelease (/ Release.gpg) writes. -/
def debGenerate (gzipF : Str → Str) (hashF : Str → Checksum) (date : Str)
    (config : RepositoryConfig) (signer : Option GPGSignerM)
    (packages : List Package) : Except Str DebOut :=
  match debGenerateArches gzipF config packages config.arches with
  | Except.error e => Except.error e
  | Except.ok out =>
    let files := CalculateReleaseFileInfos hashF
      (config.outputDir ++ cs "/dists/" ++ config.codename) (debMetadataFiles config)
    Except.ok ⟨out.copies, out.writes ++ generateRelease config files date signer⟩

theorem debGenerateArches_eq (gzipF : Str → Str) (config : RepositoryConfig)
    (packages : List Package) : ∀ arches : List Str,
    (∀ a ∈ arches, ∀ p ∈ packages, debDefaultArch p = a → p.name ≠ []) →
    debGenerateArches gzipF config packages arches = Except.ok
      ⟨arches.flatMap (fun a =>
        (packages.filter (fun p => debDefaultArch p = a)).map (fun p =>
          (p.filename, config.outputDir ++ cs "/" ++ debPoolRel p))),
       arches.flatMap (fun a =>
        [(config.outputDir ++ cs "/dists/" ++ config.codename ++ cs "/main/binary-"
            ++ a ++ cs "/Packages",
          GeneratePackagesFile ((packages.filter (fun p => debDefaultArch p = a)).map
            (fun p => { p with filename := debPoolRel p }))),
         (config.outputDir ++ cs "/dists/" ++ config.codename ++ cs "/main/binary-"
            ++ a ++ cs "/Packages.gz",
          gzipF (GeneratePackagesFile ((packages.filter
            (fun p => debDefaultArch p = a)).map
            (fun p => { p with filename := debPoolRel p }))))])⟩ := by
  intro arches
  induction arches with
  | nil => intro _; rfl
  | cons a rest ih =>
    intro h
    have hhead : ∀ p ∈ packages, debDefaultArch p = a → p.name ≠ [] :=
      fun p hp => h a (List.mem_cons_self _ _) p hp
    have hany : (packages.filter (fun p => debDefaultArch p = a)).any
        (fun p => p.name = []) = false := by
      rw [List.any_eq_false]
      intro p hp
      rw [List.mem_filter] at hp
      have := hhead p hp.1 (by simpa using hp.2)
      simpa using this
    rw [debGenerateArches, debGenerateForArch, if_neg (by rw [hany]; simp)]
    rw [ih (fun a' ha' => h a' (List.mem_cons_of_mem _ ha'))]
    simp [List.flatMap_cons]

/-- C10: a Debian generation run copies into the pool, and lists in a
Packages index, exactly the packages whose architecture (defaulted to
amd64 when empty) is one of config.Arches; a package with any other
architecture appears in no per-architecture group, contributes no copy
and no index entry, and causes no error. -/
theorem claim10_theorem (gzipF : Str → Str) (hashF : Str → Checksum) (date : Str)
    (config : RepositoryConfig) (signer : Option GPGSignerM)
    (packages : List Package)
    (hname : ∀ p ∈ packages, debDefaultArch p ∈ config.arches → p.name ≠ []) :
    ∃ out, debGenerate gzipF hashF date config signer packages = Except.ok out ∧
      out.copies = config.arches.flatMap (fun a =>
        (packages.filter (fun p => debDefaultArch p = a)).map (fun p =>
          (p.filename, config.outputDir ++ cs "/" ++ debPoolRel p))) ∧
      out.writes = (config.arches.flatMap (fun a =>
        [(config.outputDir ++ cs "/dists/" ++ config.codename ++ cs "/main/binary-"
            ++ a ++ cs "/Packages",
          GeneratePackagesFile ((packages.filter (fun p => debDefaultArch p = a)).map
            (fun p => { p with filename := debPoolRel p }))),
         (config.outputDir ++ cs "/dists/" ++ config.codename ++ cs "/main/binary-"
            ++ a ++ cs "/Packages.gz",
          gzipF (GeneratePackagesFile ((packages.filter
            (fun p => debDefaultArch p = a)).map
            (fun p => { p with filename := debPoolRel p }))))]))
        ++ generateRelease config
             (CalculateReleaseFileInfos hashF
               (config.outputDir ++ cs "/dists/" ++ config.codename)
               (debMetadataFiles config))
             date signer ∧
      ∀ p ∈ packages, debDefaultArch p ∉ config.arches →
        ∀ a ∈ config.arches, p ∉ packages.filter (fun q => debDefaultArch q = a) := by
  have harches : ∀ a ∈ config.arches, ∀ p ∈ packages, debDefaultArch p = a →
      p.name ≠ [] := by
    intro a ha p hp heq
    exact hname p hp (heq ▸ ha)
  rw [debGenerate, debGenerateArches_eq gzipF config packages config.arches harches]
  refine ⟨_, rfl, rfl, rfl, ?_⟩
  intro p _ hnot a ha hmem
  rw [List.mem_filter] at hmem
  exact hnot (by rw [show debDefaultArch p = a by simpa using hmem.2]; exact ha)

/-- C10, witness: a two-package run (amd64 and arm64) with only amd64
configured copies exactly the amd64 package. -/
theorem claim10_witness :
    ∃ out, debGenerate (fun st => st)
        (fun _ => ⟨cs "m", cs "s1", cs "s2", cs "s5", 0⟩) (cs "date")
        { outputDir := cs "o", codename := cs "stable",
          components := [cs "main"], arches := [cs "amd64"] } none
        [{ name := cs "foo", version := cs "1.0", architecture := cs "amd64",
           filename := cs "in/foo_1.0_amd64.deb" },
         { name := cs "bar", version := cs "1.0", architecture := cs "arm64",
           filename := cs "in/bar_1.0_arm64.deb" }]
      = Except.ok out ∧
      out.copies = [(cs "in/foo_1.0_amd64.deb", cs "o/pool/main/f/foo/foo_1.0_amd64.deb")] := by
  obtain ⟨out, hok, hcopies, -, -⟩ := claim10_theorem (fun st => st)
    (fun _ => ⟨cs "m", cs "s1", cs "s2", cs "s5", 0⟩) (cs "date")
    { outputDir := cs "o", codename := cs "stable",
      components := [cs "main"], arches := [cs "amd64"] } none
    [{ name := cs "foo", version := cs "1.0", architecture := cs "amd64",
       filename := cs "in/foo_1.0_amd64.deb" },
     { name := cs "bar", version := cs "1.0", architecture := cs "arm64",
       filename := cs "in/bar_1.0_arm64.deb" }]
    (by decide)
  refine ⟨out, hok, ?_⟩
  rw [hcopies]
  decide

/- Absence of the "-----BEGIN PGP" marker from unsigned Release output. -/

/-- The cleartext/armor marker the unsigned-InRelease invariant bans. -/
def pgpMarker : Str := cs "-----BEGIN PGP"

/-- A nonempty pattern containing no `c` cannot straddle a `c` separator:
an occurrence inside `a ++ c :: b` lies inside `a` or inside `b`. -/
theorem marker_split (M a b : List Char) (c : Char) (_hM : M ≠ []) (hc : c ∉ M) :
    M <:+: a ++ c :: b → M <:+: a ∨ M <:+: b := by
  rintro ⟨s, t, h⟩
  rcases List.append_eq_append_iff.mp h with ⟨w, hw1, -⟩ | ⟨w, hw1, hw2⟩
  · exact Or.inl ⟨s, w, hw1.symm⟩
  · cases w with
    | nil =>
      rw [List.append_nil] at hw1
      exact Or.inl ⟨s, [], by rw [List.append_nil]; exact hw1⟩
    | cons c0 w' =>
      rw [List.cons_append] at hw2
      obtain ⟨hcc0, hb⟩ := List.cons_eq_cons.mp hw2
      rcases List.append_eq_append_iff.mp hw1 with ⟨u, hu1, hu2⟩ | ⟨u, hu1, hu2⟩
      · exfalso
        apply hc
        rw [hu2, ← hcc0]
        exact List.mem_append_right _ (List.mem_cons_self _ _)
      · cases u with
        | nil =>
          exfalso
          apply hc
          rw [List.nil_append] at hu2
          rw [← hu2, ← hcc0]
          exact List.mem_cons_self _ _
        | cons d u' =>
          rw [List.cons_append] at hu2
          obtain ⟨hd, hw'⟩ := List.cons_eq_cons.mp hu2
          exact Or.inr ⟨u', t, by rw [hb, hw']⟩

/-- An occurrence of a pattern starting with `c` in `p ++ v`, with `c`
absent from `p`, lies inside `v`. -/
theorem marker_skip (M₀ p v : List Char) (c : Char) (hp : c ∉ p) :
    (c :: M₀) <:+: p ++ v → (c :: M₀) <:+: v := by
  rintro ⟨s, t, h⟩
  rcases List.append_eq_append_iff.mp h with ⟨w, hw1, -⟩ | ⟨w, hw1, hw2⟩
  · exfalso
    apply hp
    rw [hw1]
    exact List.mem_append_left _ (List.mem_append_right _ (List.mem_cons_self _ _))
  · rcases List.append_eq_append_iff.mp hw1 with ⟨u, hu1, hu2⟩ | ⟨u, hu1, hu2⟩
    · cases u with
      | nil =>
        rw [List.nil_append] at hu2
        exact ⟨[], t, by rw [List.nil_append, hw2, ← hu2]⟩
      | cons d u' =>
        exfalso
        apply hp
        rw [hu1]
        rw [List.cons_append] at hu2
        obtain ⟨hd, -⟩ := List.cons_eq_cons.mp hu2
        rw [hd]
        exact List.mem_append_right _ (List.mem_cons_self _ _)
    · exact ⟨u, t, by rw [hw2, hu2]⟩

/-- A pattern without newlines absent from every line is absent from the
newline-joined output. -/
theorem marker_joinNl (M : List Char) (hM : M ≠ []) (hnl : '\n' ∉ M) :
    ∀ lines : List Str, (∀ l ∈ lines, ¬ M <:+: l) → ¬ M <:+: joinNl lines := by
  intro lines
  induction lines with
  | nil =>
    intro _ h
    rw [show joinNl [] = [] from rfl, List.infix_nil] at h
    exact hM h
  | cons l ls ih =>
    intro hl hinf
    rw [show joinNl (l :: ls) = l ++ '\n' :: joinNl ls from rfl] at hinf
    rcases marker_split M l (joinNl ls) '\n' hM hnl hinf with h | h
    · exact hl l (List.mem_cons_self _ _) h
    · exact ih (fun x hx => hl x (List.mem_cons_of_mem _ hx)) h

/-- Every digit rendered by natDigits is a decimal digit character. -/
theorem natDigits_all_digit (n : Nat) : ∀ c ∈ natDigits n, c.isDigit = true := by
  induction n using Nat.strong_induction_on with
  | _ n ih =>
    by_cases h : n < 10
    · rw [natDigits_lt n h]
      intro c hc
      rw [List.mem_singleton] at hc
      subst hc
      have : ∀ m, m < 10 → (Nat.digitChar m).isDigit = true := by decide
      exact this n h
    · rw [natDigits_ge n h]
      intro c hc
      rcases List.mem_append.mp hc with hc1 | hc2
      · exact ih (n / 10) (Nat.div_lt_self (by omega) (by omega)) c hc1
      · rw [List.mem_singleton] at hc2
        subst hc2
        have : ∀ m, m < 10 → (Nat.digitChar m).isDigit = true := by decide
        exact this (n % 10) (Nat.mod_lt _ (by omega))

/-- No dash in the decimal rendering of a non-negative integer. -/
theorem dash_not_mem_intStr (n : Int) (h : 0 ≤ n) : '-' ∉ intStr n := by
  intro hmem
  rw [intStr, if_neg (by omega)] at hmem
  have := natDigits_all_digit n.toNat '-' hmem
  cases this

/-- The marker split as head and tail, for feeding marker_skip. -/
def pgpMarkerTail : Str := cs "----BEGIN PGP"

theorem pgpMarker_cons : pgpMarker = '-' :: pgpMarkerTail := rfl

/-- A line made of a dash-free literal prefix and a marker-free value
contains no marker. -/
theorem prefix_line_no_marker (p v : Str) (hp : '-' ∉ p)
    (hv : ¬ pgpMarker <:+: v) : ¬ pgpMarker <:+: p ++ v := by
  intro h
  rw [pgpMarker_cons] at h hv
  exact hv (marker_skip _ _ _ '-' hp h)

/-- A Release checksum line (" <hex> <size> <path>") contains no marker
when the checksum is dash-free, the size non-negative, and the path
marker-free. -/
theorem checksum_line_no_marker (sum : Str) (size : Int) (path : Str)
    (hsum : '-' ∉ sum) (hsize : 0 ≤ size) (hpath : ¬ pgpMarker <:+: path) :
    ¬ pgpMarker <:+: cs " " ++ sum ++ cs " " ++ intStr size ++ cs " " ++ path := by
  intro h
  rw [pgpMarker_cons] at h hpath
  simp only [List.append_assoc] at h
  have h1 := marker_skip _ _ _ '-' (show '-' ∉ cs " " by decide) h
  have h2 := marker_skip _ _ _ '-' hsum h1
  have h3 := marker_skip _ _ _ '-' (show '-' ∉ cs " " by decide) h2
  have h4 := marker_skip _ _ _ '-' (dash_not_mem_intStr size hsize) h3
  have h5 := marker_skip _ _ _ '-' (show '-' ∉ cs " " by decide) h4
  exact hpath h5

/-- The unsigned Release bytes contain no "-----BEGIN PGP" given
marker-free configuration values, dash-free checksums, non-negative sizes
and marker-free metadata paths. -/
theorem release_no_marker (config : RepositoryConfig)
    (files : List ReleaseFileInfo) (date : Str)
    (hO : ¬ pgpMarker <:+: config.origin)
    (hL : ¬ pgpMarker <:+: config.label)
    (hS : ¬ pgpMarker <:+: config.suite)
    (hCn : ¬ pgpMarker <:+: config.codename)
    (hA : ¬ pgpMarker <:+: joinStrs (cs " ") config.arches)
    (hCo : ¬ pgpMarker <:+: joinStrs (cs " ") config.components)
    (hD : ¬ pgpMarker <:+: date)
    (hF : ∀ f ∈ files,
      '-' ∉ f.checksum.md5 ∧ '-' ∉ f.checksum.sha1 ∧ '-' ∉ f.checksum.sha256 ∧
      '-' ∉ f.checksum.sha512 ∧ 0 ≤ f.checksum.size ∧ ¬ pgpMarker <:+: f.path) :
    ¬ pgpMarker <:+: GenerateReleaseFile config files date := by
  rw [GenerateReleaseFile]
  apply marker_joinNl pgpMarker (by decide) (by decide)
  intro l hl
  simp only [releaseLines, List.mem_append, List.mem_cons, List.mem_map,
    List.not_mem_nil, or_false] at hl
  rcases hl with ((((((hG | ⟨f, hf, h⟩) | h) | ⟨f, hf, h⟩) | h) | ⟨f, hf, h⟩) | h) |
    ⟨f, hf, h⟩
  · rcases hG with h | h | h | h | h | h | h | h
    · subst h; exact prefix_line_no_marker _ _ (by decide) hO
    · subst h; exact prefix_line_no_marker _ _ (by decide) hL
    · subst h; exact prefix_line_no_marker _ _ (by decide) hS
    · subst h; exact prefix_line_no_marker _ _ (by decide) hCn
    · subst h; exact prefix_line_no_marker _ _ (by decide) hA
    · subst h; exact prefix_line_no_marker _ _ (by decide) hCo
    · subst h; exact prefix_line_no_marker _ _ (by decide) hD
    · subst h; decide
  · obtain ⟨h1, h2, h3, h4, h5, h6⟩ := hF f hf
    exact h ▸ checksum_line_no_marker _ _ _ h1 h5 h6
  · subst h; decide
  · obtain ⟨h1, h2, h3, h4, h5, h6⟩ := hF f hf
    exact h ▸ checksum_line_no_marker _ _ _ h2 h5 h6
  · subst h; decide
  · obtain ⟨h1, h2, h3, h4, h5, h6⟩ := hF f hf
    exact h ▸ checksum_line_no_marker _ _ _ h3 h5 h6
  · subst h; decide
  · obtain ⟨h1, h2, h3, h4, h5, h6⟩ := hF f hf
    exact h ▸ checksum_line_no_marker _ _ _ h4 h5 h6

/-- Every per-architecture WriteFile path ends in 's' (Packages) or 'z'
(Packages.gz). -/
theorem debGenerateArches_lastChar (gzipF : Str → Str) (config : RepositoryConfig)
    (packages : List Package) : ∀ (arches : List Str) (out : DebOut),
    debGenerateArches gzipF config packages arches = Except.ok out →
    ∀ pr ∈ out.writes, pr.1.getLast? = some 's' ∨ pr.1.getLast? = some 'z' := by
  intro arches
  induction arches with
  | nil =>
    intro out h pr hpr
    cases h
    cases hpr
  | cons a rest ih =>
    intro out h pr hpr
    rw [debGenerateArches] at h
    cases h1 : debGenerateForArch gzipF config a
        (packages.filter (fun p => debDefaultArch p = a)) with
    | error e => rw [h1] at h; cases h
    | ok o1 =>
      rw [h1] at h
      cases h2 : debGenerateArches gzipF config packages rest with
      | error e => rw [h2] at h; cases h
      | ok o2 =>
        rw [h2] at h
        cases h
        rcases List.mem_append.mp hpr with hm | hm
        · rw [debGenerateForArch] at h1
          split at h1
          · cases h1
          · cases h1
            simp only [List.mem_cons, List.not_mem_nil, or_false] at hm
            rcases hm with hm | hm
            · left
              rw [hm]  -- hmm hm : pr = (path, data): rewrite pr
              rw [List.getLast?_append_of_ne_nil _ (by decide)]
              decide
            · right
              rw [hm]
              rw [List.getLast?_append_of_ne_nil _ (by decide)]
              decide
        · exact ih o2 h2 pr hm

/-- C3: in an unsigned Debian run, InRelease is written with exactly the
Release bytes (byte-equal), the Release/InRelease content contains no
"-----BEGIN PGP" substring (for marker-free configuration values and
checksum inputs), and no WriteFile of the whole run targets
dists/<codename>/Release.gpg. -/
theorem claim3_theorem (gzipF : Str → Str) (hashF : Str → Checksum) (date : Str)
    (config : RepositoryConfig) (packages : List Package)
    (files : List ReleaseFileInfo)
    (hO : ¬ pgpMarker <:+: config.origin)
    (hL : ¬ pgpMarker <:+: config.label)
    (hS : ¬ pgpMarker <:+: config.suite)
    (hCn : ¬ pgpMarker <:+: config.codename)
    (hA : ¬ pgpMarker <:+: joinStrs (cs " ") config.arches)
    (hCo : ¬ pgpMarker <:+: joinStrs (cs " ") config.components)
    (hD : ¬ pgpMarker <:+: date)
    (hF : ∀ f ∈ files,
      '-' ∉ f.checksum.md5 ∧ '-' ∉ f.checksum.sha1 ∧ '-' ∉ f.checksum.sha256 ∧
      '-' ∉ f.checksum.sha512 ∧ 0 ≤ f.checksum.size ∧ ¬ pgpMarker <:+: f.path) :
    generateRelease config files date none
      = [(config.outputDir ++ cs "/dists/" ++ config.codename ++ cs "/Release",
          GenerateReleaseFile config files date),
         (config.outputDir ++ cs "/dists/" ++ config.codename ++ cs "/InRelease",
          GenerateReleaseFile config files date)] ∧
    ¬ pgpMarker <:+: GenerateReleaseFile config files date ∧
    (∀ out, debGenerate gzipF hashF date config none packages = Except.ok out →
      ∀ pr ∈ out.writes,
        pr.1 ≠ config.outputDir ++ cs "/dists/" ++ config.codename
          ++ cs "/Release.gpg") := by
  refine ⟨rfl, release_no_marker config files date hO hL hS hCn hA hCo hD hF, ?_⟩
  intro out hok pr hpr heq
  rw [debGenerate] at hok
  cases h1 : debGenerateArches gzipF config packages config.arches with
  | error e => rw [h1] at hok; cases hok
  | ok o =>
    rw [h1] at hok
    cases hok
    rcases List.mem_append.mp hpr with hm | hm
    · have hlast := debGenerateArches_lastChar gzipF config packages
        config.arches o h1 pr hm
      rw [heq, List.getLast?_append_of_ne_nil _ (by decide)] at hlast
      rcases hlast with hl | hl
      · exact absurd hl (by decide)
      · exact absurd hl (by decide)
    · simp only [generateRelease, List.cons_append, List.nil_append,
        List.mem_cons, List.not_mem_nil, or_false] at hm
      rcases hm with hm | hm
      · rw [hm] at heq
        have := congrArg List.getLast? heq
        rw [List.getLast?_append_of_ne_nil _ (show cs "/Release" ≠ [] by decide),
          List.getLast?_append_of_ne_nil _ (show cs "/Release.gpg" ≠ [] by decide)]
          at this
        exact absurd this (by decide)
      · rw [hm] at heq
        have := congrArg List.getLast? heq
        rw [List.getLast?_append_of_ne_nil _ (show cs "/InRelease" ≠ [] by decide),
          List.getLast?_append_of_ne_nil _ (show cs "/Release.gpg" ≠ [] by decide)]
          at this
        exact absurd this (by decide)

/-- C3, witness at a concrete unsigned configuration. -/
theorem claim3_witness :
    generateRelease
        { outputDir := cs "o", origin := cs "Example", label := cs "Example",
          suite := cs "stable", codename := cs "stable",
          components := [cs "main"], arches := [cs "amd64"] }
        [{ path := cs "main/binary-amd64/Packages",
           checksum := { md5 := cs "d41d8cd9", sha1 := cs "da39a3ee",
                         sha256 := cs "e3b0c442", sha512 := cs "cf83e135",
                         size := 20 } }]
        (cs "Thu, 01 Jan 1970 00:00:00 +0000") none
      = [(cs "o" ++ cs "/dists/" ++ cs "stable" ++ cs "/Release",
          GenerateReleaseFile
            { outputDir := cs "o", origin := cs "Example", label := cs "Example",
              suite := cs "stable", codename := cs "stable",
              components := [cs "main"], arches := [cs "amd64"] }
            [{ path := cs "main/binary-amd64/Packages",
               checksum := { md5 := cs "d41d8cd9", sha1 := cs "da39a3ee",
                             sha256 := cs "e3b0c442", sha512 := cs "cf83e135",
                             size := 20 } }]
            (cs "Thu, 01 Jan 1970 00:00:00 +0000")),
         (cs "o" ++ cs "/dists/" ++ cs "stable" ++ cs "/InRelease",
          GenerateReleaseFile
            { outputDir := cs "o", origin := cs "Example", label := cs "Example",
              suite := cs "stable", codename := cs "stable",
              components := [cs "main"], arches := [cs "amd64"] }
            [{ path := cs "main/binary-amd64/Packages",
               checksum := { md5 := cs "d41d8cd9", sha1 := cs "da39a3ee",
                             sha256 := cs "e3b0c442", sha512 := cs "cf83e135",
                             size := 20 } }]
            (cs "Thu, 01 Jan 1970 00:00:00 +0000"))] ∧
    ¬ pgpMarker <:+: GenerateReleaseFile
        { outputDir := cs "o", origin := cs "Example", label := cs "Example",
          suite := cs "stable", codename := cs "stable",
          components := [cs "main"], arches := [cs "amd64"] }
        [{ path := cs "main/binary-amd64/Packages",
           checksum := { md5 := cs "d41d8cd9", sha1 := cs "da39a3ee",
                         sha256 := cs "e3b0c442", sha512 := cs "cf83e135",
                         size := 20 } }]
        (cs "Thu, 01 Jan 1970 00:00:00 +0000") := by
  have h := claim3_theorem (fun st => st) (fun _ => ⟨cs "m", cs "s1", cs "s2", cs "s5", 0⟩)
    (cs "Thu, 01 Jan 1970 00:00:00 +0000")
    { outputDir := cs "o", origin := cs "Example", label := cs "Example",
      suite := cs "stable", codename := cs "stable",
      components := [cs "main"], arches := [cs "amd64"] }
    []
    [{ path := cs "main/binary-amd64/Packages",
       checksum := { md5 := cs "d41d8cd9", sha1 := cs "da39a3ee",
                     sha256 := cs "e3b0c442", sha512 := cs "cf83e135",
                     size := 20 } }]
    (by decide) (by decide) (by decide) (by decide) (by decide) (by decide)
    (by decide) (by decide)
  exact ⟨h.1, h.2.1⟩

/- Round-trip of the Debian Packages codec. -/

theorem splitColonSp_key : ∀ (key v : Str), ':' ∉ key →
    splitColonSp (key ++ cs ": " ++ v) = some (key, v)
  | [], v, _ => by
    show splitColonSp (':' :: ' ' :: v) = some ([], v)
    rw [splitColonSp]
    rw [if_pos ⟨rfl, rfl⟩]
  | k :: ks, v, hk => by
    have hkc : k ≠ ':' := fun h => hk (h ▸ List.mem_cons_self _ _)
    have hks : ':' ∉ ks := fun h => hk (List.mem_cons_of_mem _ h)
    have ih := splitColonSp_key ks v hks
    show splitColonSp (k :: (ks ++ cs ": " ++ v)) = some (k :: ks, v)
    cases hcase : (ks ++ cs ": " ++ v) with
    | nil =>
      exfalso
      have : (ks ++ cs ": " ++ v).length = 0 := by rw [hcase]; rfl
      simp [List.length_append, cs] at this
    | cons c2 rest2 =>
      rw [splitColonSp]
      rw [if_neg (by intro hand; exact hkc hand.1)]
      rw [← hcase, ih]

theorem parseStep_field (l : Str) (f v : Str) (rest : List Str)
    (cur : Option Package) (hne : l ≠ []) (hsp : splitColonSp l = some (f, v)) :
    parsePackagesLines (l :: rest) cur
      = parsePackagesLines rest (some (applyPackagesField (cur.getD {}) f v)) := by
  rw [parsePackagesLines.eq_def]
  dsimp only
  rw [if_neg hne, hsp]

theorem parseStep_blank (rest : List Str) (p : Package) :
    parsePackagesLines ([] :: rest) (some p) = p :: parsePackagesLines rest none := rfl

/-- Processing a conditionally present field line. -/
theorem parse_ifline (b : Prop) [Decidable b] (l : Str) (rest : List Str)
    (cur : Package) (hne : l ≠ []) (f v : Str)
    (hsp : splitColonSp l = some (f, v)) :
    parsePackagesLines ((if b then [l] else []) ++ rest) (some cur)
      = parsePackagesLines rest
          (some (if b then applyPackagesField cur f v else cur)) := by
  by_cases hb : b
  · rw [if_pos hb, if_pos hb, List.cons_append, List.nil_append]
    exact parseStep_field l f v rest (some cur) hne hsp
  · rw [if_neg hb, if_neg hb, List.nil_append]

theorem natDigits_ne_nil (n : Nat) : natDigits n ≠ [] := by
  by_cases h : n < 10
  · rw [natDigits_lt n h]
    exact List.cons_ne_nil _ _
  · rw [natDigits_ge n h]
    simp

theorem natDigits_val (n : Nat) : digitsVal (natDigits n) = (n : Int) := by
  induction n using Nat.strong_induction_on with
  | _ n ih =>
    by_cases h : n < 10
    · rw [natDigits_lt n h]
      have hchar : ∀ m, m < 10 → (Nat.digitChar m).toNat = m + 48 := by decide
      simp [digitsVal, List.foldl_cons, hchar n h]
    · rw [natDigits_ge n h, digitsVal, List.foldl_append]
      have hiv := ih (n / 10) (Nat.div_lt_self (by omega) (by omega))
      rw [digitsVal] at hiv
      rw [hiv]
      have hchar : ∀ m, m < 10 → (Nat.digitChar m).toNat = m + 48 := by decide
      simp [List.foldl_cons, hchar (n % 10) (Nat.mod_lt _ (by omega))]
      omega

theorem parseIntGo_intStr (n : Int) (h1 : -(2 ^ 63) ≤ n) (h2 : n ≤ 2 ^ 63 - 1) :
    parseIntGo (intStr n) = n := by
  by_cases hneg : n < 0
  · rw [intStr, if_pos hneg, parseIntGo]
    rw [if_neg (show ('-' : Char) ≠ '+' by decide)]
    rw [if_pos (show ('-' : Char) = '-' from rfl)]
    have hne := natDigits_ne_nil (-n).toNat
    have hall : (natDigits (-n).toNat).all Char.isDigit = true := by
      rw [List.all_eq_true]
      intro c hc
      exact natDigits_all_digit _ c hc
    rw [parseIntDigits, if_neg hne, if_pos hall]
    rw [show (if (true : Bool) then -digitsVal (natDigits (-n).toNat)
        else digitsVal (natDigits (-n).toNat)) = -digitsVal (natDigits (-n).toNat)
      from rfl]
    rw [show digitsVal (natDigits (-n).toNat)
        = ((-n).toNat : Int) from natDigits_val (-n).toNat]
    have hn' : ((-n).toNat : Int) = -n := Int.toNat_of_nonneg (by omega)
    rw [hn', parseIntClamp]
    rw [if_neg (by omega), if_neg (by omega)]
    omega
  · rw [intStr, if_neg hneg, parseIntGo.eq_def]
    have hne := natDigits_ne_nil n.toNat
    cases hd : natDigits n.toNat with
    | nil => exact absurd hd hne
    | cons c rest =>
      have hcd : c.isDigit = true :=
        natDigits_all_digit n.toNat c (by rw [hd]; exact List.mem_cons_self _ _)
      have hcp : c ≠ '+' := by
        intro h
        rw [h] at hcd
        cases hcd
      have hcm : c ≠ '-' := by
        intro h
        rw [h] at hcd
        cases hcd
      simp only
      rw [if_neg hcp, if_neg hcm]
      have hall : (c :: rest).all Char.isDigit = true := by
        rw [List.all_eq_true]
        intro x hx
        exact natDigits_all_digit n.toNat x (by rw [hd]; exact hx)
      rw [parseIntDigits, if_neg (List.cons_ne_nil _ _), if_pos hall]
      rw [show (if (false : Bool) then -digitsVal (c :: rest)
          else digitsVal (c :: rest)) = digitsVal (c :: rest) from rfl]
      rw [show digitsVal (c :: rest) = digitsVal (natDigits n.toNat) by rw [hd]]
      rw [show digitsVal (natDigits n.toNat) = (n.toNat : Int)
        from natDigits_val n.toNat]
      have hn' : (n.toNat : Int) = n := Int.toNat_of_nonneg (by omega)
      rw [hn', parseIntClamp]
      rw [if_neg (by omega), if_neg (by omega)]

theorem nl_not_mem_intStr (n : Int) : '\n' ∉ intStr n := by
  intro hmem
  rw [intStr] at hmem
  by_cases h : n < 0
  · rw [if_pos h] at hmem
    cases hmem with
    | tail _ hm =>
      have := natDigits_all_digit (-n).toNat '\n' hm
      cases this
  · rw [if_neg h] at hmem
    have := natDigits_all_digit n.toNat '\n' hmem
    cases this

theorem cr_not_mem_intStr (n : Int) : '\r' ∉ intStr n := by
  intro hmem
  rw [intStr] at hmem
  by_cases h : n < 0
  · rw [if_pos h] at hmem
    cases hmem with
    | tail _ hm =>
      have := natDigits_all_digit (-n).toNat '\r' hm
      cases this
  · rw [if_neg h] at hmem
    have := natDigits_all_digit n.toNat '\r' hmem
    cases this

theorem joinStrs_not_mem (c : Char) (sep : Str) (hs : c ∉ sep) :
    ∀ l : List Str, (∀ x ∈ l, c ∉ x) → c ∉ joinStrs sep l
  | [], _ => by intro h; cases h
  | [x], h => by
    intro hmem
    exact h x (List.mem_cons_self _ _) hmem
  | x :: y :: t, h => by
    intro hmem
    rw [show joinStrs sep (x :: y :: t) = x ++ sep ++ joinStrs sep (y :: t) from rfl]
      at hmem
    rcases List.mem_append.mp hmem with hm | hm
    · rcases List.mem_append.mp hm with hm' | hm'
      · exact h x (List.mem_cons_self _ _) hm'
      · exact hs hm'
    · exact joinStrs_not_mem c sep hs (y :: t)
        (fun z hz => h z (List.mem_cons_of_mem _ hz)) hm

theorem splitOnChar_append (c : Char) : ∀ (l rest : Str), c ∉ l →
    splitOnChar c (l ++ c :: rest) = l :: splitOnChar c rest
  | [], rest, _ => by
    rw [List.nil_append, splitOnChar]
    rw [if_pos rfl]
  | d :: l', rest, h => by
    have hdc : d ≠ c := fun hh => h (hh ▸ List.mem_cons_self _ _)
    have hl' : c ∉ l' := fun hh => h (List.mem_cons_of_mem _ hh)
    rw [List.cons_append, splitOnChar]
    rw [if_neg hdc]
    rw [splitOnChar_append c l' rest hl']

theorem splitOnChar_joinNl : ∀ lines : List Str, (∀ l ∈ lines, '\n' ∉ l) →
    splitOnChar '\n' (joinNl lines) = lines ++ [[]]
  | [], _ => rfl
  | l :: ls, h => by
    rw [show joinNl (l :: ls) = l ++ '\n' :: joinNl ls from rfl]
    rw [splitOnChar_append '\n' l (joinNl ls) (h l (List.mem_cons_self _ _))]
    rw [splitOnChar_joinNl ls (fun x hx => h x (List.mem_cons_of_mem _ hx))]
    rfl

theorem dropCR_eq_self {l : Str} (h : '\r' ∉ l) : dropCR l = l := by
  have hne : l.getLast? ≠ some '\r' := by
    intro hl
    exact h (List.mem_of_mem_getLast? hl)
  rw [dropCR, if_neg hne]

theorem map_dropCR_id : ∀ (ms : List Str), (∀ x ∈ ms, '\r' ∉ x) →
    ms.map dropCR = ms
  | [], _ => rfl
  | m :: ms, h => by
    rw [List.map_cons, dropCR_eq_self (h m (List.mem_cons_self _ _)),
      map_dropCR_id ms (fun x hx => h x (List.mem_cons_of_mem _ hx))]

theorem goLines_joinNl (lines : List Str) (h : ∀ l ∈ lines, '\n' ∉ l)
    (h2 : ∀ l ∈ lines, '\r' ∉ l) :
    goLines (joinNl lines) = lines := by
  cases lines with
  | nil => rfl
  | cons l ls =>
    rw [goLines]
    have hne : joinNl (l :: ls) ≠ [] := by
      rw [show joinNl (l :: ls) = l ++ '\n' :: joinNl ls from rfl]
      intro hh
      have := congrArg List.length hh
      simp [List.length_append] at this
    rw [if_neg hne]
    rw [splitOnChar_joinNl (l :: ls) h]
    show ((if ((l :: ls) ++ [[]]).getLast? = some [] then ((l :: ls) ++ [[]]).dropLast
      else (l :: ls) ++ [[]]).map dropCR) = l :: ls
    rw [if_pos (by rw [List.getLast?_append_of_ne_nil _ (by decide)]; rfl)]
    exact (congrArg (List.map dropCR) (List.dropLast_concat ..)).trans
      (map_dropCR_id (l :: ls) h2)

/-- The fields of a Package the round-trip claim compares: name, version,
architecture, size, the four checksum strings, and the description. -/
def projC (p : Package) : Str × Str × Str × Int × Str × Str × Str × Str × Str :=
  (p.name, p.version, p.architecture, p.size, p.md5sum, p.sha1sum, p.sha256sum,
   p.sha512sum, p.description)

/-- Sanity conditions under which the Packages-file round trip holds: no
newline and no carriage return in any emitted value (the scanner strips a
trailing '\r' from every line), metadata keys colon-free and distinct from
the index's own field names, and a size within int64. -/
abbrev pkgOK (p : Package) : Prop :=
  ('\n' ∉ p.name ∧ '\r' ∉ p.name) ∧ ('\n' ∉ p.version ∧ '\r' ∉ p.version) ∧
  ('\n' ∉ p.architecture ∧ '\r' ∉ p.architecture) ∧
  ('\n' ∉ p.filename ∧ '\r' ∉ p.filename) ∧
  ('\n' ∉ p.description ∧ '\r' ∉ p.description) ∧
  ('\n' ∉ p.maintainer ∧ '\r' ∉ p.maintainer) ∧
  ('\n' ∉ p.homepage ∧ '\r' ∉ p.homepage) ∧
  ('\n' ∉ p.md5sum ∧ '\r' ∉ p.md5sum) ∧
  ('\n' ∉ p.sha1sum ∧ '\r' ∉ p.sha1sum) ∧
  ('\n' ∉ p.sha256sum ∧ '\r' ∉ p.sha256sum) ∧
  ('\n' ∉ p.sha512sum ∧ '\r' ∉ p.sha512sum) ∧
  (∀ d ∈ p.dependencies, '\n' ∉ d ∧ '\r' ∉ d) ∧
  (∀ kv ∈ p.metadata, ':' ∉ kv.1 ∧ '\n' ∉ kv.1 ∧ '\r' ∉ kv.1 ∧
    '\n' ∉ metaValStr kv.2 ∧ '\r' ∉ metaValStr kv.2 ∧
    kv.1 ≠ cs "Filename" ∧ kv.1 ≠ cs "Size" ∧ kv.1 ≠ cs "MD5sum" ∧
    kv.1 ≠ cs "SHA1" ∧ kv.1 ≠ cs "SHA256" ∧ kv.1 ≠ cs "SHA512") ∧
  -(2 ^ 63) ≤ p.size ∧ p.size ≤ 2 ^ 63 - 1

theorem mem_ifsingle {c : Prop} [Decidable c] {x l : Str} :
    l ∈ (if c then [x] else []) → l = x := by
  by_cases hc : c
  · rw [if_pos hc]
    intro h
    exact List.mem_singleton.mp h
  · rw [if_neg hc]
    intro h
    cases h

theorem not_mem_append_of (c : Char) (a b : Str) (ha : c ∉ a) (hb : c ∉ b) :
    c ∉ a ++ b := by
  intro h
  rcases List.mem_append.mp h with h | h
  · exact ha h
  · exact hb h

theorem blockLines_clean (p : Package) (hp : pkgOK p) :
    ∀ l ∈ debPackagesBlockLines p, '\n' ∉ l ∧ '\r' ∉ l := by
  obtain ⟨hn, hv, ha, hf, hd, hm, hh, hc5, hc1, hc256, hc512, hdeps, hmeta,
    hsz1, hsz2⟩ := hp
  intro l hl
  rw [debPackagesBlockLines] at hl
  rcases List.mem_append.mp hl with hl | hl
  case inr =>
    rw [List.mem_singleton.mp hl]
    exact ⟨by decide, by decide⟩
  rcases List.mem_append.mp hl with hl | hl
  case inr =>
    rcases List.mem_map.mp hl with ⟨kv, hkv, hline⟩
    have hkv' := List.mem_filter.mp hkv
    obtain ⟨hcol, hknl, hkcr, hvnl, hvcr, -⟩ := hmeta kv hkv'.1
    rw [← hline]
    exact ⟨not_mem_append_of _ _ _
        (not_mem_append_of _ _ _ hknl (by decide)) hvnl,
      not_mem_append_of _ _ _
        (not_mem_append_of _ _ _ hkcr (by decide)) hvcr⟩
  rcases List.mem_append.mp hl with hl | hl
  case inr =>
    rw [mem_ifsingle hl]
    exact ⟨not_mem_append_of _ _ _ (by decide)
        (joinStrs_not_mem _ _ (by decide) _ (fun d hd' => (hdeps d hd').1)),
      not_mem_append_of _ _ _ (by decide)
        (joinStrs_not_mem _ _ (by decide) _ (fun d hd' => (hdeps d hd').2))⟩
  rcases List.mem_append.mp hl with hl | hl
  case inr =>
    rw [mem_ifsingle hl]
    exact ⟨not_mem_append_of _ _ _ (by decide) hd.1,
      not_mem_append_of _ _ _ (by decide) hd.2⟩
  rcases List.mem_append.mp hl with hl | hl
  case inr =>
    rw [mem_ifsingle hl]
    exact ⟨not_mem_append_of _ _ _ (by decide) hh.1,
      not_mem_append_of _ _ _ (by decide) hh.2⟩
  rcases List.mem_append.mp hl with hl | hl
  case inr =>
    rw [mem_ifsingle hl]
    exact ⟨not_mem_append_of _ _ _ (by decide) hm.1,
      not_mem_append_of _ _ _ (by decide) hm.2⟩
  simp only [List.mem_cons, List.not_mem_nil, or_false] at hl
  rcases hl with hl | hl | hl | hl | hl | hl | hl | hl | hl
  · rw [hl]
    exact ⟨not_mem_append_of _ _ _ (by decide) hn.1,
      not_mem_append_of _ _ _ (by decide) hn.2⟩
  · rw [hl]
    exact ⟨not_mem_append_of _ _ _ (by decide) hv.1,
      not_mem_append_of _ _ _ (by decide) hv.2⟩
  · rw [hl]
    exact ⟨not_mem_append_of _ _ _ (by decide) ha.1,
      not_mem_append_of _ _ _ (by decide) ha.2⟩
  · rw [hl]
    exact ⟨not_mem_append_of _ _ _ (by decide) hf.1,
      not_mem_append_of _ _ _ (by decide) hf.2⟩
  · rw [hl]
    exact ⟨not_mem_append_of _ _ _ (by decide) (nl_not_mem_intStr p.size),
      not_mem_append_of _ _ _ (by decide) (cr_not_mem_intStr p.size)⟩
  · rw [hl]
    exact ⟨not_mem_append_of _ _ _ (by decide) hc5.1,
      not_mem_append_of _ _ _ (by decide) hc5.2⟩
  · rw [hl]
    exact ⟨not_mem_append_of _ _ _ (by decide) hc1.1,
      not_mem_append_of _ _ _ (by decide) hc1.2⟩
  · rw [hl]
    exact ⟨not_mem_append_of _ _ _ (by decide) hc256.1,
      not_mem_append_of _ _ _ (by decide) hc256.2⟩
  · rw [hl]
    exact ⟨not_mem_append_of _ _ _ (by decide) hc512.1,
      not_mem_append_of _ _ _ (by decide) hc512.2⟩

theorem debSkipKey_false_iff (k : Str) :
    debSkipKey k = false ↔
      (k ≠ cs "Package" ∧ k ≠ cs "Version" ∧ k ≠ cs "Architecture" ∧
       k ≠ cs "Maintainer" ∧ k ≠ cs "Homepage" ∧ k ≠ cs "Description" ∧
       k ≠ cs "Depends") := by
  rw [debSkipKey]
  simp [not_or]

/-- A metadata line never ends the record and never touches the compared
fields: processing any run of metadata lines keeps projC. -/
theorem parse_metaLines : ∀ (kvs : List (Str × MetaVal)) (q : Package)
    (rest : List Str),
    (∀ kv ∈ kvs, ':' ∉ kv.1 ∧ debSkipKey kv.1 = false ∧
      kv.1 ≠ cs "Filename" ∧ kv.1 ≠ cs "Size" ∧ kv.1 ≠ cs "MD5sum" ∧
      kv.1 ≠ cs "SHA1" ∧ kv.1 ≠ cs "SHA256" ∧ kv.1 ≠ cs "SHA512") →
    ∃ q', parsePackagesLines
        ((kvs.map (fun kv => kv.1 ++ (cs ": " ++ metaValStr kv.2))) ++ rest) (some q)
      = parsePackagesLines rest (some q') ∧ projC q' = projC q
  | [], q, rest, _ => ⟨q, by rw [List.map_nil, List.nil_append], rfl⟩
  | kv :: kvs, q, rest, h => by
    obtain ⟨hcol, hskip, hF, hSz, hM5, hS1, hS256, hS512⟩ := h kv (List.mem_cons_self _ _)
    obtain ⟨hP, hV, hA, hMt, hH, hD, hDp⟩ := (debSkipKey_false_iff kv.1).mp hskip
    rw [List.map_cons, List.cons_append]
    have hne : kv.1 ++ (cs ": " ++ metaValStr kv.2) ≠ [] := by
      intro hh
      rcases List.append_eq_nil.mp hh with ⟨-, h1⟩
      rcases List.append_eq_nil.mp h1 with ⟨h2, -⟩
      exact absurd h2 (by decide)
    have hsp : splitColonSp (kv.1 ++ (cs ": " ++ metaValStr kv.2))
        = some (kv.1, metaValStr kv.2) := by
      rw [← List.append_assoc]
      exact splitColonSp_key kv.1 (metaValStr kv.2) hcol
    rw [parseStep_field _ _ _ _ _ hne hsp]
    have happ : applyPackagesField ((some q).getD {}) kv.1 (metaValStr kv.2)
        = { q with metadata := (kv.1, MetaVal.str (metaValStr kv.2)) :: q.metadata } := by
      rw [show (some q).getD {} = q from rfl]
      rw [applyPackagesField]
      rw [if_neg hP, if_neg hV, if_neg hA, if_neg hF, if_neg hSz, if_neg hM5,
        if_neg hS1, if_neg hS256, if_neg hS512, if_neg hD, if_neg hMt, if_neg hH,
        if_neg hDp]
    rw [happ]
    obtain ⟨q', heq, hproj⟩ := parse_metaLines kvs
      { q with metadata := (kv.1, MetaVal.str (metaValStr kv.2)) :: q.metadata } rest
      (fun x hx => h x (List.mem_cons_of_mem _ hx))
    exact ⟨q', heq, by rw [hproj]; rfl⟩

/-- The parser state after the nine mandatory lines of one package block. -/
def debState9 (p : Package) : Package :=
  { name := p.name, version := p.version, architecture := p.architecture,
    filename := p.filename, size := parseIntGo (intStr p.size),
    md5sum := p.md5sum, sha1sum := p.sha1sum, sha256sum := p.sha256sum,
    sha512sum := p.sha512sum }

/-- The parser state after the optional Maintainer/Homepage/Description/
Depends lines of one package block. -/
def debStateOpt (p : Package) : Package :=
  let s1 := debState9 p
  let s2 := if p.maintainer ≠ [] then
    applyPackagesField s1 (cs "Maintainer") p.maintainer else s1
  let s3 := if p.homepage ≠ [] then
    applyPackagesField s2 (cs "Homepage") p.homepage else s2
  let s4 := if p.description ≠ [] then
    applyPackagesField s3 (cs "Description") p.description else s3
  if p.dependencies ≠ [] then
    applyPackagesField s4 (cs "Depends") (joinStrs (cs ", ") p.dependencies)
  else s4

theorem cs_append_ne_nil {a : Str} (h : a ≠ []) (v : Str) : a ++ v ≠ [] := by
  intro hh
  exact h (List.append_eq_nil.mp hh).1

theorem applyMaint (c : Package) (v : Str) :
    applyPackagesField c (cs "Maintainer") v = { c with maintainer := v } := rfl

theorem applyHome (c : Package) (v : Str) :
    applyPackagesField c (cs "Homepage") v = { c with homepage := v } := rfl

theorem applyDesc (c : Package) (v : Str) :
    applyPackagesField c (cs "Description") v = { c with description := v } := rfl

theorem applyDeps (c : Package) (v : Str) :
    applyPackagesField c (cs "Depends") v
      = { c with dependencies := splitCommaSp v } := rfl

theorem projC_debStateOpt (p : Package) (h1 : -(2 ^ 63) ≤ p.size)
    (h2 : p.size ≤ 2 ^ 63 - 1) : projC (debStateOpt p) = projC p := by
  have hsz := parseIntGo_intStr p.size h1 h2
  by_cases hM : p.maintainer = [] <;> by_cases hH : p.homepage = [] <;>
    by_cases hD : p.description = [] <;> by_cases hDep : p.dependencies = [] <;>
    simp [debStateOpt, debState9, applyMaint, applyHome, applyDesc, applyDeps,
      projC, hM, hH, hD, hDep, hsz]

/-- Parsing one emitted block prepends exactly one package, equal to the
original on the compared fields. -/
theorem parse_block (p : Package) (hp : pkgOK p) (rest : List Str) :
    ∃ q, parsePackagesLines (debPackagesBlockLines p ++ rest) none
        = q :: parsePackagesLines rest none ∧ projC q = projC p := by
  obtain ⟨hn, hv, ha, hf, hd, hm, hh, hc5, hc1, hc256, hc512, hdeps, hmeta,
    hsz1, hsz2⟩ := hp
  have hkvs : ∀ kv ∈ p.metadata.filter (fun kv => debSkipKey kv.1 = false),
      ':' ∉ kv.1 ∧ debSkipKey kv.1 = false ∧
      kv.1 ≠ cs "Filename" ∧ kv.1 ≠ cs "Size" ∧ kv.1 ≠ cs "MD5sum" ∧
      kv.1 ≠ cs "SHA1" ∧ kv.1 ≠ cs "SHA256" ∧ kv.1 ≠ cs "SHA512" := by
    intro kv hkv
    have hkv' := List.mem_filter.mp hkv
    obtain ⟨hcol, -, -, -, -, hF, hSz, hM5, hS1, hS256, hS512⟩ := hmeta kv hkv'.1
    exact ⟨hcol, of_decide_eq_true hkv'.2, hF, hSz, hM5, hS1, hS256, hS512⟩
  have e1 : splitColonSp (cs "Package: " ++ p.name) = some (cs "Package", p.name) :=
    splitColonSp_key (cs "Package") p.name (by decide)
  have ne1 : cs "Package: " ++ p.name ≠ [] := cs_append_ne_nil (by decide) _
  have e2 : splitColonSp (cs "Version: " ++ p.version)
      = some (cs "Version", p.version) :=
    splitColonSp_key (cs "Version") p.version (by decide)
  have ne2 : cs "Version: " ++ p.version ≠ [] := cs_append_ne_nil (by decide) _
  have e3 : splitColonSp (cs "Architecture: " ++ p.architecture)
      = some (cs "Architecture", p.architecture) :=
    splitColonSp_key (cs "Architecture") p.architecture (by decide)
  have ne3 : cs "Architecture: " ++ p.architecture ≠ [] :=
    cs_append_ne_nil (by decide) _
  have e4 : splitColonSp (cs "Filename: " ++ p.filename)
      = some (cs "Filename", p.filename) :=
    splitColonSp_key (cs "Filename") p.filename (by decide)
  have ne4 : cs "Filename: " ++ p.filename ≠ [] := cs_append_ne_nil (by decide) _
  have e5 : splitColonSp (cs "Size: " ++ intStr p.size)
      = some (cs "Size", intStr p.size) :=
    splitColonSp_key (cs "Size") (intStr p.size) (by decide)
  have ne5 : cs "Size: " ++ intStr p.size ≠ [] := cs_append_ne_nil (by decide) _
  have e6 : splitColonSp (cs "MD5sum: " ++ p.md5sum)
      = some (cs "MD5sum", p.md5sum) :=
    splitColonSp_key (cs "MD5sum") p.md5sum (by decide)
  have ne6 : cs "MD5sum: " ++ p.md5sum ≠ [] := cs_append_ne_nil (by decide) _
  have e7 : splitColonSp (cs "SHA1: " ++ p.sha1sum)
      = some (cs "SHA1", p.sha1sum) :=
    splitColonSp_key (cs "SHA1") p.sha1sum (by decide)
  have ne7 : cs "SHA1: " ++ p.sha1sum ≠ [] := cs_append_ne_nil (by decide) _
  have e8 : splitColonSp (cs "SHA256: " ++ p.sha256sum)
      = some (cs "SHA256", p.sha256sum) :=
    splitColonSp_key (cs "SHA256") p.sha256sum (by decide)
  have ne8 : cs "SHA256: " ++ p.sha256sum ≠ [] := cs_append_ne_nil (by decide) _
  have e9 : splitColonSp (cs "SHA512: " ++ p.sha512sum)
      = some (cs "SHA512", p.sha512sum) :=
    splitColonSp_key (cs "SHA512") p.sha512sum (by decide)
  have ne9 : cs "SHA512: " ++ p.sha512sum ≠ [] := cs_append_ne_nil (by decide) _
  have eM : splitColonSp (cs "Maintainer: " ++ p.maintainer)
      = some (cs "Maintainer", p.maintainer) :=
    splitColonSp_key (cs "Maintainer") p.maintainer (by decide)
  have neM : cs "Maintainer: " ++ p.maintainer ≠ [] :=
    cs_append_ne_nil (by decide) _
  have eH : splitColonSp (cs "Homepage: " ++ p.homepage)
      = some (cs "Homepage", p.homepage) :=
    splitColonSp_key (cs "Homepage") p.homepage (by decide)
  have neH : cs "Homepage: " ++ p.homepage ≠ [] := cs_append_ne_nil (by decide) _
  have eD : splitColonSp (cs "Description: " ++ p.description)
      = some (cs "Description", p.description) :=
    splitColonSp_key (cs "Description") p.description (by decide)
  have neD : cs "Description: " ++ p.description ≠ [] :=
    cs_append_ne_nil (by decide) _
  have eDep : splitColonSp (cs "Depends: " ++ joinStrs (cs ", ") p.dependencies)
      = some (cs "Depends", joinStrs (cs ", ") p.dependencies) :=
    splitColonSp_key (cs "Depends") (joinStrs (cs ", ") p.dependencies) (by decide)
  have neDep : cs "Depends: " ++ joinStrs (cs ", ") p.dependencies ≠ [] :=
    cs_append_ne_nil (by decide) _
  rw [debPackagesBlockLines]
  simp only [List.cons_append, List.nil_append, List.append_assoc,
    List.singleton_append]
  rw [parseStep_field _ _ _ _ _ ne1 e1, parseStep_field _ _ _ _ _ ne2 e2,
    parseStep_field _ _ _ _ _ ne3 e3, parseStep_field _ _ _ _ _ ne4 e4,
    parseStep_field _ _ _ _ _ ne5 e5, parseStep_field _ _ _ _ _ ne6 e6,
    parseStep_field _ _ _ _ _ ne7 e7, parseStep_field _ _ _ _ _ ne8 e8,
    parseStep_field _ _ _ _ _ ne9 e9]
  rw [parse_ifline (p.maintainer ≠ []) _ _ _ neM _ _ eM]
  rw [parse_ifline (p.homepage ≠ []) _ _ _ neH _ _ eH]
  rw [parse_ifline (p.description ≠ []) _ _ _ neD _ _ eD]
  rw [parse_ifline (p.dependencies ≠ []) _ _ _ neDep _ _ eDep]
  obtain ⟨q', hq', hproj⟩ := parse_metaLines
    (p.metadata.filter (fun kv => debSkipKey kv.1 = false)) (debStateOpt p)
    ([] :: rest) hkvs
  exact ⟨q', hq'.trans (parseStep_blank rest q'),
    hproj.trans (projC_debStateOpt p hsz1 hsz2)⟩

/-- Parsing the concatenation of blocks recovers the projections in order. -/
theorem parse_blocks : ∀ (ps : List Package), (∀ p ∈ ps, pkgOK p) →
    (parsePackagesLines (ps.flatMap debPackagesBlockLines) none).map projC
      = ps.map projC
  | [], _ => rfl
  | p :: ps, h => by
    rw [List.flatMap_cons]
    obtain ⟨q, hq, hproj⟩ := parse_block p (h p (List.mem_cons_self _ _))
      (ps.flatMap debPackagesBlockLines)
    rw [hq, List.map_cons, List.map_cons, hproj]
    rw [parse_blocks ps (fun x hx => h x (List.mem_cons_of_mem _ hx))]

/-- C2: Debian round trip. For every package list whose records satisfy the
sanity conditions pkgOK (no newline or carriage return inside any emitted
value — the scanner strips a trailing '\r' per line — metadata keys
colon-free, distinct from the writer's own field names and not skipped, and
sizes within int64), parsing the bytes of GeneratePackagesFile with
parsePackagesReader recovers the same multiset of records on name, version,
architecture, size, the four checksum strings, and description. Without
those conditions the claim fails (see the counterexample). -/
theorem claim2_theorem (pkgs : List Package) (h : ∀ p ∈ pkgs, pkgOK p) :
    ((parsePackagesReader (GeneratePackagesFile pkgs)).map projC).Perm
      (pkgs.map projC) := by
  rw [parsePackagesReader, GeneratePackagesFile]
  have hsorted : ∀ p ∈ sortPackages pkgs, pkgOK p := by
    intro p hp
    exact h p ((List.perm_insertionSort _ pkgs).mem_iff.mp hp)
  have hclean : ∀ l ∈ (sortPackages pkgs).flatMap debPackagesBlockLines,
      '\n' ∉ l ∧ '\r' ∉ l := by
    intro l hl
    rw [List.mem_flatMap] at hl
    obtain ⟨p, hp, hlp⟩ := hl
    exact blockLines_clean p (hsorted p hp) l hlp
  rw [goLines_joinNl _ (fun l hl => (hclean l hl).1) (fun l hl => (hclean l hl).2)]
  rw [parse_blocks (sortPackages pkgs) hsorted]
  exact (List.perm_insertionSort _ pkgs).map projC

instance projCEq3 : DecidableEq (Str × Str × Str) := instDecidableEqProd

instance projCEq4 : DecidableEq (Str × Str × Str × Str) := instDecidableEqProd

instance projCEq5 : DecidableEq (Str × Str × Str × Str × Str) :=
  instDecidableEqProd

instance projCEq6 : DecidableEq (Int × Str × Str × Str × Str × Str) :=
  instDecidableEqProd

instance projCEq7 : DecidableEq (Str × Int × Str × Str × Str × Str × Str) :=
  instDecidableEqProd

instance projCEq8 :
    DecidableEq (Str × Str × Int × Str × Str × Str × Str × Str) :=
  instDecidableEqProd

instance projCEq9 :
    DecidableEq (Str × Str × Str × Int × Str × Str × Str × Str × Str) :=
  instDecidableEqProd

set_option synthInstance.maxSize 2048 in
instance pkgOKDec (p : Package) : Decidable (pkgOK p) := by infer_instance

def pkgRtA : Package :=
  { name := cs "alpha", version := cs "1.0", architecture := cs "amd64",
    description := cs "first package", maintainer := cs "Alice Example",
    homepage := cs "https://a.example", dependencies := [cs "libc6", cs "zlib1g"],
    filename := cs "pool/main/a/alpha/alpha_1.0_amd64.deb", size := 1234,
    md5sum := cs "aa11", sha1sum := cs "bb22", sha256sum := cs "cc33",
    sha512sum := cs "dd44",
    metadata := [(cs "Section", MetaVal.str (cs "utils")),
                 (cs "Priority", MetaVal.str (cs "optional"))] }

def pkgRtB : Package :=
  { name := cs "beta", version := cs "2.0", architecture := cs "arm64",
    size := 5 }

/-- C2 witness: a concrete two-package list satisfying the side conditions,
round-tripped. -/
theorem claim2_witness :
    (∀ p ∈ [pkgRtA, pkgRtB], pkgOK p) ∧
    ((parsePackagesReader (GeneratePackagesFile [pkgRtA, pkgRtB])).map projC).Perm
      ([pkgRtA, pkgRtB].map projC) :=
  ⟨by decide, claim2_theorem [pkgRtA, pkgRtB] (by decide)⟩

def pkgRtBad : Package :=
  { name := cs "gamma", description := cs "a" ++ '\n' :: cs "b" }

def pkgApkBad : Package :=
  { name := cs "m", md5sum := cs "aa" }

def apkBadContent : Str := cs "C:Q1\nP:m\nV:\nA:\nS:0\n"

/-- C2 counterexample to the claim as stated (for every list of packages,
for every ecosystem's writer/reader pair): for the Debian codec a
description holding a newline is written raw, the parser treats the text
after the newline as a separate line without a ": " and drops it, so the
recovered description differs; and for the Alpine codec the index stores
no MD5/SHA256/SHA512 checksum at all, so a package with a nonempty MD5
checksum string parses back with an empty one — in both cases the parsed
record set does not match the input on the claim's fields. -/
theorem claim2_counterexample :
    (¬ ((parsePackagesReader (GeneratePackagesFile [pkgRtBad])).map projC).Perm
        ([pkgRtBad].map projC)) ∧
    generateAPKINDEX [pkgApkBad] = Except.ok apkBadContent ∧
    ¬ ((parseAPKINDEXContent apkBadContent).map projC).Perm
        ([pkgApkBad].map projC) := by decide

end Repogen
